import Mathlib

/-!
Verification of the `marxia-save-lite` ingestion relay (`src/index.js`).

The development shallowly embeds the worker's validate–normalize–sign–forward
pipeline.  JavaScript strings are modelled as `List Char` (one entry per UTF-16
code unit; all inputs used in the theorems are BMP text, where the two notions
coincide).  JavaScript numbers are modelled as an exact-rational idealization
of IEEE binary64: `JSNum` distinguishes `NaN`, the two infinities and finite
values, finite values carry an exact `ℚ`, and the decimal parsers overflow to
the infinities at the binary64 rounding boundary `2^1024 - 2^970` exactly as
the doubles do.  None of the claims settled below depends on binary64 rounding
of an in-range value: the sanitizers only ever compare parses against the
clamp bounds `[1, 9999]`, format to two decimal places, or test finiteness.
`JSON.parse` is left abstract (a parameter of `handleSave`): no claim depends
on the JSON grammar itself, only on what happens to the parsed value.
-/

/-- ASCII control characters, the class `[\u0000-\u001F]` of `safeText`. -/
def isCtl (c : Char) : Bool := c.toNat < 32

/-- The ECMAScript `WhiteSpace` ∪ `LineTerminator` class used by
`String.prototype.trim`, `parseInt` and `parseFloat`. -/
def isJsWS (c : Char) : Bool :=
  c.toNat = 9 || c.toNat = 10 || c.toNat = 11 || c.toNat = 12 || c.toNat = 13 ||
  c.toNat = 32 || c.toNat = 160 || c.toNat = 5760 ||
  (8192 ≤ c.toNat && c.toNat ≤ 8202) || c.toNat = 8232 || c.toNat = 8233 ||
  c.toNat = 8239 || c.toNat = 8287 || c.toNat = 12288 || c.toNat = 65279

/-- ASCII decimal digit test. -/
def isDigitCh (c : Char) : Bool := 48 ≤ c.toNat && c.toNat ≤ 57

/-- Numeric value of an ASCII digit character. -/
def digitVal (c : Char) : ℕ := c.toNat - 48

/-- The ASCII digit character for a digit value. -/
def digitChar10 (d : ℕ) : Char :=
  match d with
  | 0 => '0' | 1 => '1' | 2 => '2' | 3 => '3' | 4 => '4'
  | 5 => '5' | 6 => '6' | 7 => '7' | 8 => '8' | _ => '9'

/-- Value of a digit string, most significant digit first (as consumed by the
ECMAScript `StrDecimalLiteral` / `parseInt` digit accumulation). -/
def digitsToNat (l : List Char) : ℕ := l.foldl (fun a c => 10 * a + digitVal c) 0

/-- Digit characters of `n`, most significant first, by repeated division;
`fuel ≥ n` makes the recursion structural. -/
def natToCharsAux : ℕ → ℕ → List Char
  | 0, _ => []
  | _ + 1, 0 => []
  | fuel + 1, n => natToCharsAux fuel (n / 10) ++ [digitChar10 (n % 10)]

/-- Decimal digit characters of `n`, most significant first (`ToString` of a
whole number). -/
def natToChars (n : ℕ) : List Char :=
  if n = 0 then ['0'] else natToCharsAux n n

/-- Convenience: the character list of a Lean string literal. -/
def jstr (s : String) : List Char := s.data

/-- A JavaScript number: an exact-rational idealization of IEEE binary64. -/
inductive JSNum where
  | nan : JSNum
  | inf : JSNum
  | ninf : JSNum
  | fin : ℚ → JSNum
deriving DecidableEq

/-- The binary64 overflow boundary: exact values at or beyond
`2^1024 - 2^970` round to `Infinity` under round-to-nearest-even. -/
def ovfQ : ℚ := 2 ^ 1024 - 2 ^ 970

/-- Round an exact parsed value into the `JSNum` range, overflowing to the
infinities at the binary64 boundary. -/
def clampOvf (q : ℚ) : JSNum :=
  if ovfQ ≤ q then .inf else if q ≤ -ovfQ then .ninf else .fin q

/-- A JavaScript value as it can reach the sanitizers: `undefined`, `null`,
booleans, numbers, strings, arrays and plain objects. -/
inductive JSVal where
  | undefined : JSVal
  | null : JSVal
  | bool : Bool → JSVal
  | num : JSNum → JSVal
  | str : List Char → JSVal
  | arr : List JSVal → JSVal
  | obj : List (String × JSVal) → JSVal

/-- Search `k ≤ q.den` for an exponent making `q * 10^k` an integer (succeeds
exactly on finite-decimal rationals, which is every value a decimal parse can
produce). -/
def decK (q : ℚ) : ℕ :=
  (((List.range (q.den + 1)).find? fun k => (q * (10 : ℚ) ^ k).den = 1).getD 0)

/-- Insert a decimal point `k` digits from the right of the digit string `P`
(no point when `k = 0`). -/
def decPoint (P : List Char) (k : ℕ) : List Char :=
  if k = 0 then P else P.take (P.length - k) ++ '.' :: P.drop (P.length - k)

/-- Digit string of the scaled integer `m`, zero-padded so a decimal point
can sit `k` digits from the right. -/
def decBody (m k : ℕ) : List Char :=
  if (natToChars m).length ≤ k then
    decPoint (List.replicate (k + 1 - (natToChars m).length) '0' ++ natToChars m) k
  else decPoint (natToChars m) k

/-- Positional decimal rendering of a finite-decimal rational, as
`Number::toString` renders the doubles reachable in this pipeline (sign,
digits, optional fraction; no exponent form — the theorems below only ever
evaluate it on small integers). -/
def ratToChars (q : ℚ) : List Char :=
  if q = 0 then ['0']
  else if q < 0 then '-' :: decBody (|q| * (10 : ℚ) ^ decK q).num.toNat (decK q)
  else decBody (|q| * (10 : ℚ) ^ decK q).num.toNat (decK q)

/-- `ToString` of a number (`String(n)` for the number case). -/
def numToChars : JSNum → List Char
  | .nan => jstr "NaN"
  | .inf => jstr "Infinity"
  | .ninf => jstr "-Infinity"
  | .fin q => ratToChars q

mutual
/-- The ECMAScript `String(v)` conversion applied by `toInt`/`toMoney`. -/
def jsToString : JSVal → List Char
  | .undefined => jstr "undefined"
  | .null => jstr "null"
  | .bool b => if b then jstr "true" else jstr "false"
  | .num n => numToChars n
  | .str s => s
  | .arr l => arrJoin l
  | .obj _ => jstr "[object Object]"

/-- `Array.prototype.toString`: elements joined with commas, `null` and
`undefined` elements rendered empty. -/
def arrJoin : List JSVal → List Char
  | [] => []
  | [x] => arrElem x
  | x :: y :: t => arrElem x ++ ',' :: arrJoin (y :: t)

/-- One array element under `join`. -/
def arrElem : JSVal → List Char
  | .undefined => []
  | .null => []
  | v => jsToString v
end

/-- Consume an optional leading sign; `true` means negative. -/
def readSign (s : List Char) : Bool × List Char :=
  match s with
  | c :: t => if c = '-' then (true, t) else if c = '+' then (false, t) else (false, s)
  | [] => (false, s)

/-- Consume an optional `ExponentPart`; an `e`/`E` not followed by digits
contributes nothing (the valid literal prefix ends before it). -/
def parseExp (s : List Char) : ℤ :=
  match s with
  | c :: t =>
    if c = 'e' ∨ c = 'E' then
      let p := readSign t
      let ds := p.2.takeWhile isDigitCh
      if ds.isEmpty then 0
      else if p.1 then -(digitsToNat ds : ℤ) else (digitsToNat ds : ℤ)
    else 0
  | [] => 0

/-- After the integer digits: an optional `.` introduces the fraction-digit
run; returns (fraction digits, rest). -/
def fracSplit : List Char → List Char × List Char
  | '.' :: t => (t.takeWhile isDigitCh, t.dropWhile isDigitCh)
  | r => ([], r)

/-- The unsigned decimal part of the ECMAScript `StrDecimalLiteral` grammar:
integer digits, optional `.` plus fraction digits, optional exponent; `none`
when no digit is found. -/
def parseUnsignedDec (s : List Char) : Option ℚ :=
  let ip := s.takeWhile isDigitCh
  let r1 := s.dropWhile isDigitCh
  let fp := (fracSplit r1).1
  let r2 := (fracSplit r1).2
  if ip.isEmpty && fp.isEmpty then none
  else some ((digitsToNat (ip ++ fp) : ℚ) * (10 : ℚ) ^ (parseExp r2 - (fp.length : ℤ)))

/-- ECMAScript `parseFloat`: skip leading whitespace, read the longest
`StrDecimalLiteral` prefix (including signed `Infinity`), `NaN` otherwise. -/
def jsParseFloat (s : List Char) : JSNum :=
  let s1 := s.dropWhile isJsWS
  let p := readSign s1
  if (jstr "Infinity").isPrefixOf p.2 then (if p.1 then .ninf else .inf)
  else
    match parseUnsignedDec p.2 with
    | none => .nan
    | some q => clampOvf (if p.1 then -q else q)

/-- ECMAScript `parseInt(·, 10)`: skip leading whitespace, optional sign,
longest run of decimal digits; `NaN` when there is none. -/
def jsParseInt10 (s : List Char) : JSNum :=
  let s1 := s.dropWhile isJsWS
  let p := readSign s1
  let ds := p.2.takeWhile isDigitCh
  if ds.isEmpty then .nan
  else clampOvf (((if p.1 then -(digitsToNat ds : ℤ) else (digitsToNat ds : ℤ)) : ℤ) : ℚ)

/-- Remove `<` and `>`, the first `replace` of `safeText`. -/
def stripAngle (l : List Char) : List Char := l.filter fun c => !(c = '<' || c = '>')

/-- Replace each maximal run of ASCII control characters by a single space,
the second `replace` of `safeText`; the flag records whether the previous
character was part of a control run. -/
def collapseCtlAux : Bool → List Char → List Char
  | _, [] => []
  | prev, c :: cs =>
    if isCtl c then
      (if prev then collapseCtlAux true cs else ' ' :: collapseCtlAux true cs)
    else c :: collapseCtlAux false cs

/-- `replace(/[\u0000-\u001F]+/g, " ")`. -/
def collapseCtl (l : List Char) : List Char := collapseCtlAux false l

/-- `String.prototype.trim`: drop leading and trailing JS whitespace. -/
def jsTrim (l : List Char) : List Char :=
  List.rdropWhile isJsWS (l.dropWhile isJsWS)

/-- `safeText(v, max)`: empty for non-strings; otherwise strip angle brackets,
collapse control runs to single spaces, trim, then truncate to `maxLen`. -/
def safeText (v : JSVal) (maxLen : ℕ) : List Char :=
  match v with
  | .str s =>
    if maxLen < (jsTrim (collapseCtl (stripAngle s))).length then
      (jsTrim (collapseCtl (stripAngle s))).take maxLen
    else jsTrim (collapseCtl (stripAngle s))
  | _ => []

/-- `toInt(v, min, max)`: `parseInt(String(v), 10)`; `0` when the parse is not
finite, otherwise the value clamped into `[lo, hi]`. -/
def toInt (v : JSVal) (lo hi : ℚ) : ℚ :=
  match jsParseInt10 (jsToString v) with
  | .fin n => min (max n lo) hi
  | _ => 0

/-- Digit string of `n % 100` padded to two characters (the fraction part of
`toFixed(2)`). -/
def pad2 (r : ℕ) : List Char := if r < 10 then '0' :: natToChars r else natToChars r

/-- The two-decimal rendering `⌊n/100⌋ "." (n mod 100)` of the scaled integer
`n` chosen by `toFixed(2)`. -/
def fixed2Str (n : ℕ) : List Char := natToChars (n / 100) ++ '.' :: pad2 (n % 100)

/-- Trailing-zero stripping used by the exponential rendering. -/
def stripZeros (l : List Char) : List Char := List.rdropWhile (fun c => c = '0') l

/-- Digits-and-exponent assembly shared by the exponential rendering: the
significand digits of `m` with trailing zeros stripped, a decimal point when
more than one digit remains, and the exponent of the leading digit. -/
def expStrCore (m k : ℕ) : List Char :=
  match stripZeros (natToChars m) with
  | [] => jstr "0e+0"
  | h :: t =>
    h :: ((if t.isEmpty then [] else '.' :: t) ++
      'e' :: '+' :: natToChars ((natToChars m).length - 1 - k))

/-- Exponential rendering `d.ddd…e+NN` of a finite-decimal rational, the
`ToString` form `toFixed` falls back to for values at or above `10^21` (exact
digits; binary64 `ToString` prints the shortest round-tripping digit string,
which agrees on every value evaluated below). -/
def expStr (q : ℚ) : List Char :=
  expStrCore (q * (10 : ℚ) ^ decK q).num.toNat (decK q)

/-- `Number.prototype.toFixed(2)` on a nonnegative value: the integer `n`
closest to `100 x` (ties away from zero) rendered with two decimals; values
in the `ToString` regime (`n ≥ 10^23`, i.e. `x ≥ 10^21` on every binary64
value) render exponentially.  ECMA branches on `x ≥ 10^21` before choosing
`n`; on binary64 values the two conditions coincide (doubles at that
magnitude are integers), and the scaled form keeps the model exact. -/
def toFixed2 (q : ℚ) : List Char :=
  let n : ℤ := ⌊100 * q + 1 / 2⌋
  if n < 10 ^ 23 then fixed2Str n.toNat else expStr q

/-- `toMoney(v)`: parse `String(v)` as a float; non-finite or negative values
render as `"0.00"`, the rest via `toFixed(2)`. -/
def toMoney (v : JSVal) : List Char :=
  match jsParseFloat (jsToString v) with
  | .fin q => if q < 0 then jstr "0.00" else toFixed2 q
  | _ => jstr "0.00"

/-- Property lookup on an object's own fields; `undefined` when absent. -/
def propLookup : List (String × JSVal) → String → JSVal
  | [], _ => .undefined
  | (k, v) :: rest, key => if k = key then v else propLookup rest key

/-- Total (optional-chaining style) property access: `undefined` on `null`,
`undefined` and primitives, field lookup on objects. -/
def jsGet (v : JSVal) (key : String) : JSVal :=
  match v with
  | .obj fs => propLookup fs key
  | _ => .undefined

/-- A sanitized row as pushed by the normalization loop of `handleSave`. -/
structure SanitizedRow where
  timestamp : List Char
  item_name : List Char
  qty : ℚ
  subtotal_usd : List Char
  vat_usd : List Char
  total_usd : List Char
  currency : List Char
  iva_rate : ℚ
deriving DecidableEq

/-- How row processing can fail: `thrown` models an uncaught `TypeError`
(property access on a `null`/`undefined` row), `invalid` the `invalid_row`
rejection carrying the diagnostic hint. -/
inductive RowErr where
  | thrown : RowErr
  | invalid : List Char → ℚ → RowErr
deriving DecidableEq

/-- The fixed VAT rate `IVA_RATE = 0.15` of `handleSave`. -/
def ivaRate : ℚ := 15 / 100

/-- The body of the normalization loop for one raw row: property access on a
`null` row throws; otherwise the fields are sanitized and validated. -/
def sanitizeRow (r : JSVal) : Except RowErr SanitizedRow :=
  match r with
  | .null => .error .thrown
  | .undefined => .error .thrown
  | _ =>
    if (safeText (jsGet r "timestamp") 64).isEmpty ||
        (safeText (jsGet r "item") 96).isEmpty || toInt (jsGet r "qty") 1 9999 ≤ 0 then
      .error (.invalid (safeText (jsGet r "item") 96) (toInt (jsGet r "qty") 1 9999))
    else
      .ok { timestamp := safeText (jsGet r "timestamp") 64,
            item_name := safeText (jsGet r "item") 96,
            qty := toInt (jsGet r "qty") 1 9999,
            subtotal_usd := toMoney (jsGet r "subtotal"),
            vat_usd := toMoney (jsGet r "vat"),
            total_usd := toMoney (jsGet r "total"),
            currency := jstr "USD", iva_rate := ivaRate }

/-- The normalization loop: rows processed in order, stopping at the first
failing row (the whole submission is rejected, nothing is forwarded). -/
def normRows : List JSVal → Except RowErr (List SanitizedRow)
  | [] => .ok []
  | r :: rs =>
    match sanitizeRow r with
    | .error e => .error e
    | .ok s =>
      match normRows rs with
      | .error e => .error e
      | .ok l => .ok (s :: l)

/-- Row-collection acceptance (lines 30–34): a bare non-empty array, or a
wrapper object whose `rows` field is a non-empty array; `none` means the
`empty_rows` rejection. -/
def extractRows (v : JSVal) : Option (List JSVal) :=
  match v with
  | .arr es => if es.isEmpty then none else some es
  | _ =>
    match jsGet v "rows" with
    | .arr es => if es.isEmpty then none else some es
    | _ => none

/-- A JSON value as it appears in the worker's own responses. -/
inductive JVal where
  | vb : Bool → JVal
  | vs : List Char → JVal
  | vn : ℚ → JVal
  | vo : List (String × JVal) → JVal

/-- An HTTP response produced by `json(obj, status)`: the status code and the
field list of the serialized object, in source order. -/
structure HttpResp where
  status : ℕ
  fields : List (String × JVal)

/-- First value bound to a key in a response object, if any. -/
def findField : List (String × JVal) → String → Option JVal
  | [], _ => none
  | (k, v) :: rest, key => if k = key then some v else findField rest key

/-- Whether a response object carries a key at all. -/
def hasField (r : HttpResp) (key : String) : Bool :=
  (r.fields.map Prod.fst).contains key

/-- The `§7` error-code taxonomy. -/
def errorTaxonomy : List (List Char) :=
  [jstr "payload_too_large", jstr "invalid_json", jstr "empty_rows", jstr "invalid_row"]

/-- `fetch` response success flag: `Response.ok` is status 200–299. -/
def resOk (status : ℕ) : Bool := 200 ≤ status && status ≤ 299

/-- Lowercase an ASCII letter, the canonicalization of a non-Unicode
case-insensitive regex over an ASCII pattern. -/
def lowerAscii (c : Char) : Char :=
  if 65 ≤ c.toNat && c.toNat ≤ 90 then Char.ofNat (c.toNat + 32) else c

/-- Substring search: does `pat` occur contiguously in `text`? -/
def hasInfix (pat : List Char) : List Char → Bool
  | [] => pat.isEmpty
  | c :: t => pat.isPrefixOf (c :: t) || hasInfix pat t

/-- `/success/i.test(text)`: the marker occurs case-insensitively. -/
def hasSuccess (text : List Char) : Bool :=
  hasInfix (jstr "success") (text.map lowerAscii)

/-- The downstream response as the relay sees it: HTTP status and the body
text, `none` meaning reading the text threw (caught and treated as `""`). -/
structure DownstreamResp where
  status : ℕ
  text : Option (List Char)

/-- Lines 91–95: interpret the downstream response.  Success needs `res.ok`
and the case-insensitive marker; anything else surfaces the downstream status
and the body truncated to 3000 characters, with HTTP status 502. -/
def relayRespond (down : DownstreamResp) : HttpResp :=
  let text := down.text.getD []
  if resOk down.status && hasSuccess text then
    ⟨200, [("ok", .vb true), ("forwarded", .vb true)]⟩
  else
    ⟨502, [("ok", .vb false), ("forwarded", .vb false),
           ("status", .vn down.status), ("body", .vs (text.take 3000))]⟩

/-- The inbound body: a streaming source of chunks, or a source yielding the
whole body at once. -/
inductive BodySource where
  | stream : List (List ℕ) → BodySource
  | whole : List ℕ → BodySource

/-- The streaming read loop of `readLimited`: accumulate chunks, abort with
`none` as soon as the received byte count exceeds `maxB`.  Also returns how
many chunks were consumed from the reader. -/
def readStreamAux (maxB : ℕ) : List (List ℕ) → ℕ → Option (List ℕ) × ℕ
  | [], _ => (some [], 0)
  | c :: cs, received =>
    if maxB < received + c.length then (none, 1)
    else
      let r := readStreamAux maxB cs (received + c.length)
      (r.1.map (fun b => c ++ b), r.2 + 1)

/-- `readLimited(request, maxBytes)`: bounded streaming read, or an
after-the-fact length check when the body is not streamable. -/
def readLimited : BodySource → ℕ → Option (List ℕ)
  | .stream cs, m => (readStreamAux m cs 0).1
  | .whole bs, m => if m < bs.length then none else some bs

/-- Number of chunks the streaming reader consumed. -/
def chunksConsumed (cs : List (List ℕ)) (m : ℕ) : ℕ := (readStreamAux m cs 0).2

/-- The 64 KiB hard cap `MAX` of `handleSave`. -/
def maxBytes : ℕ := 65536

/-- The 413 `payload_too_large` response of line 23. -/
def tooLargeResp : HttpResp :=
  ⟨413, [("ok", .vb false), ("error", .vs (jstr "payload_too_large"))]⟩

/-- The 400 `invalid_json` response of line 27. -/
def invalidJsonResp : HttpResp :=
  ⟨400, [("ok", .vb false), ("error", .vs (jstr "invalid_json"))]⟩

/-- The 400 `empty_rows` response of line 33. -/
def emptyRowsResp : HttpResp :=
  ⟨400, [("ok", .vb false), ("error", .vs (jstr "empty_rows"))]⟩

/-- The 422 `invalid_row` response of line 52, with its diagnostic hint. -/
def invalidRowResp (name : List Char) (q : ℚ) : HttpResp :=
  ⟨422, [("ok", .vb false), ("error", .vs (jstr "invalid_row")),
         ("hint", .vo [("item_name", .vs name), ("qty", .vn q)])]⟩

/-- `handleSave`, instrumented: `parse` stands for
`JSON.parse(TextDecoder.decode(·))` (`none` = parse threw); `down` is the
downstream endpoint's response.  The result is `.error ()` when the handler
throws (uncaught `TypeError` on a `null` row), otherwise the response returned
to the caller paired with the number of downstream `fetch` calls issued. -/
def handleSave (parse : List ℕ → Option JSVal) (down : DownstreamResp)
    (body : BodySource) : Except Unit (HttpResp × ℕ) :=
  match readLimited body maxBytes with
  | none => .ok (tooLargeResp, 0)
  | some buf =>
    match parse buf with
    | none => .ok (invalidJsonResp, 0)
    | some rows =>
      match extractRows rows with
      | none => .ok (emptyRowsResp, 0)
      | some dataRows =>
        match normRows dataRows with
        | .error .thrown => .error ()
        | .error (.invalid name q) => .ok (invalidRowResp name q, 0)
        | .ok _ => .ok (relayRespond down, 1)

/-- The spec's output format for money strings: one or more integer digits, a
decimal point, exactly two fraction digits (stated from the spec's words, to
be compared with what `toMoney` actually produces). -/
def isTwoDecStr (s : List Char) : Bool :=
  match s.reverse with
  | b :: a :: c :: rest =>
    isDigitCh b && isDigitCh a && decide (c = '.') && !rest.isEmpty && rest.all isDigitCh
  | _ => false

/-- The raw row of scenario A. -/
def rowAFields : List (String × JSVal) :=
  [("timestamp", .str (jstr "t1")), ("item", .str (jstr "Coffee")),
   ("qty", .str (jstr "2")), ("subtotal", .str (jstr "3")),
   ("vat", .str (jstr "0.45")), ("total", .str (jstr "3.45"))]

/-- The raw row of scenario A as a JS value. -/
def rowA : JSVal := .obj rowAFields

/-- The sanitized row the spec expects for scenario A. -/
def rowASan : SanitizedRow :=
  { timestamp := jstr "t1", item_name := jstr "Coffee", qty := 2,
    subtotal_usd := jstr "3.00", vat_usd := jstr "0.45", total_usd := jstr "3.45",
    currency := jstr "USD", iva_rate := ivaRate }

/-- A row with a numeric quantity of `0` (the clamping scenario of the
implicit claim about `toInt`). -/
def rowQFields : List (String × JSVal) :=
  [("timestamp", .str (jstr "t")), ("item", .str (jstr "x")),
   ("qty", .str (jstr "0"))]

/-- The `qty = "0"` row as a JS value. -/
def rowQ0 : JSVal := .obj rowQFields

/-- What the `qty = "0"` row sanitizes to: accepted, with the quantity
clamped up to `1` and the absent money fields rendered `"0.00"`. -/
def rowQSan : SanitizedRow :=
  { timestamp := jstr "t", item_name := jstr "x", qty := 1,
    subtotal_usd := jstr "0.00", vat_usd := jstr "0.00", total_usd := jstr "0.00",
    currency := jstr "USD", iva_rate := ivaRate }

/-! ### Digit rendering and parsing -/

theorem natToCharsAux_eq : ∀ fuel n : ℕ, n ≤ fuel →
    natToCharsAux fuel n = (Nat.digits 10 n).reverse.map digitChar10 := by
  intro fuel
  induction fuel with
  | zero =>
    intro n hn
    interval_cases n
    simp [natToCharsAux]
  | succ fuel ih =>
    intro n hn
    cases n with
    | zero => simp [natToCharsAux]
    | succ m =>
      show natToCharsAux fuel ((m + 1) / 10) ++ [digitChar10 ((m + 1) % 10)] = _
      rw [ih ((m + 1) / 10) (by omega), Nat.digits_def' (by norm_num : 1 < 10) (Nat.succ_pos m)]
      simp

theorem natToChars_eq_digits (n : ℕ) :
    natToChars n = if n = 0 then ['0'] else (Nat.digits 10 n).reverse.map digitChar10 := by
  unfold natToChars
  split
  · rfl
  · exact natToCharsAux_eq n n le_rfl

theorem digitVal_digitChar10 {d : ℕ} (h : d < 10) : digitVal (digitChar10 d) = d := by
  interval_cases d <;> rfl

theorem isDigitCh_digitChar10 {d : ℕ} (h : d < 10) : isDigitCh (digitChar10 d) = true := by
  interval_cases d <;> rfl

theorem natToChars_all_digit (n : ℕ) : ∀ c ∈ natToChars n, isDigitCh c = true := by
  intro c hc
  rw [natToChars_eq_digits] at hc
  split at hc
  · simp only [List.mem_singleton] at hc
    subst hc; rfl
  · simp only [List.mem_map, List.mem_reverse] at hc
    obtain ⟨d, hd, rfl⟩ := hc
    exact isDigitCh_digitChar10 (Nat.digits_lt_base (by norm_num) hd)

theorem natToChars_ne_nil (n : ℕ) : natToChars n ≠ [] := by
  rw [natToChars_eq_digits]
  split
  · simp
  · simp only [ne_eq, List.map_eq_nil_iff, List.reverse_eq_nil_iff]
    exact Nat.digits_ne_nil_iff_ne_zero.mpr (by assumption)

theorem digitsToNat_foldl_init (b : List Char) : ∀ i : ℕ,
    b.foldl (fun a c => 10 * a + digitVal c) i
      = i * 10 ^ b.length + b.foldl (fun a c => 10 * a + digitVal c) 0 := by
  induction b with
  | nil => intro i; simp
  | cons c t ih =>
    intro i
    rw [List.foldl_cons, List.foldl_cons, ih (10 * i + digitVal c), ih (10 * 0 + digitVal c)]
    simp only [List.length_cons]
    ring

theorem digitsToNat_append (a b : List Char) :
    digitsToNat (a ++ b) = digitsToNat a * 10 ^ b.length + digitsToNat b := by
  unfold digitsToNat
  rw [List.foldl_append]
  exact digitsToNat_foldl_init b _

theorem digitsToNat_rev_map (A : List ℕ) (hA : ∀ d ∈ A, d < 10) :
    digitsToNat (A.reverse.map digitChar10) = Nat.ofDigits 10 A := by
  induction A with
  | nil => rfl
  | cons a T ih =>
    have ha : a < 10 := hA a (by simp)
    have hT : ∀ d ∈ T, d < 10 := fun d hd => hA d (by simp [hd])
    rw [List.reverse_cons, List.map_append, digitsToNat_append, ih hT]
    have h1 : digitsToNat (List.map digitChar10 [a]) = a := by
      simp only [List.map_cons, List.map_nil]
      show 10 * 0 + digitVal (digitChar10 a) = a
      rw [digitVal_digitChar10 ha]
      ring
    rw [h1, Nat.ofDigits_cons]
    simp
    ring

theorem digitsToNat_natToChars (n : ℕ) : digitsToNat (natToChars n) = n := by
  rw [natToChars_eq_digits]
  split
  · subst n; rfl
  · rw [digitsToNat_rev_map _ (fun d hd => Nat.digits_lt_base (by norm_num) hd),
      Nat.ofDigits_digits]

/-! ### Character-class facts -/

theorem isDigitCh_iff {c : Char} : isDigitCh c = true ↔ 48 ≤ c.toNat ∧ c.toNat ≤ 57 := by
  simp [isDigitCh]

theorem digit_not_ws {c : Char} (h : isDigitCh c = true) : isJsWS c = false := by
  rw [isDigitCh_iff] at h
  simp only [isJsWS, Bool.or_eq_false_iff, Bool.and_eq_false_iff,
    decide_eq_false_iff_not]
  omega

theorem digit_not_ctl {c : Char} (h : isDigitCh c = true) : isCtl c = false := by
  rw [isDigitCh_iff] at h
  simp only [isCtl, decide_eq_false_iff_not]
  omega

theorem digit_ne_dot {c : Char} (h : isDigitCh c = true) : c ≠ '.' := by
  intro hEq; subst hEq; exact absurd h (by decide)

theorem digit_ne_minus {c : Char} (h : isDigitCh c = true) : c ≠ '-' := by
  intro hEq; subst hEq; exact absurd h (by decide)

theorem digit_ne_plus {c : Char} (h : isDigitCh c = true) : c ≠ '+' := by
  intro hEq; subst hEq; exact absurd h (by decide)

theorem digit_ne_e {c : Char} (h : isDigitCh c = true) : c ≠ 'e' := by
  intro hEq; subst hEq; exact absurd h (by decide)

theorem digit_ne_E {c : Char} (h : isDigitCh c = true) : c ≠ 'E' := by
  intro hEq; subst hEq; exact absurd h (by decide)

theorem digit_ne_I {c : Char} (h : isDigitCh c = true) : c ≠ 'I' := by
  intro hEq; subst hEq; exact absurd h (by decide)

/-! ### Scanner facts -/

theorem takeWhile_append_all {p : Char → Bool} {r : List Char}
    (hr : ∀ c, r.head? = some c → p c = false) :
    ∀ D : List Char, (∀ c ∈ D, p c = true) →
      (D ++ r).takeWhile p = D ∧ (D ++ r).dropWhile p = r := by
  intro D
  induction D with
  | nil =>
    intro _
    simp only [List.nil_append]
    cases r with
    | nil => simp
    | cons c t =>
      have hc : p c = false := hr c rfl
      simp [List.takeWhile_cons, List.dropWhile_cons, hc]
  | cons d D' ih =>
    intro hD
    have hd : p d = true := hD d (by simp)
    have ih' := ih fun c hc => hD c (by simp [hc])
    simp [List.takeWhile_cons, List.dropWhile_cons, hd, ih'.1, ih'.2]

theorem readSign_digit {c : Char} {t : List Char} (h : isDigitCh c = true) :
    readSign (c :: t) = (false, c :: t) := by
  simp only [readSign]
  rw [if_neg (digit_ne_minus h), if_neg (digit_ne_plus h)]

theorem infinity_not_prefix {c : Char} {t : List Char} (h : isDigitCh c = true) :
    (jstr "Infinity").isPrefixOf (c :: t) = false := by
  show (('I' == c) && _) = false
  have : ('I' == c) = false := beq_eq_false_iff_ne.mpr (Ne.symm (digit_ne_I h))
  rw [this, Bool.false_and]

theorem dropWhile_not_head {p : Char → Bool} {c : Char} {l : List Char}
    (h : p c = false) : (c :: l).dropWhile p = c :: l := by
  simp [List.dropWhile_cons, h]

theorem rdropWhile_append_rtakeWhile (p : Char → Bool) (l : List Char) :
    List.rdropWhile p l ++ List.rtakeWhile p l = l := by
  rw [List.rdropWhile, List.rtakeWhile, ← List.reverse_append,
    List.takeWhile_append_dropWhile, List.reverse_reverse]

/-! ### Round-tripping the two-decimal rendering through the float parser -/

theorem ten_pow21_lt_ovfQ : (10 : ℚ) ^ 21 < ovfQ := by norm_num [ovfQ]

theorem ovfQ_pos : (0 : ℚ) < ovfQ := by norm_num [ovfQ]

theorem clampOvf_fin {q : ℚ} (h1 : q < ovfQ) (h2 : -ovfQ < q) : clampOvf q = .fin q := by
  unfold clampOvf
  rw [if_neg (not_le.mpr h1), if_neg (not_le.mpr h2)]

theorem clampOvf_fin_inv {q q' : ℚ} (h : clampOvf q = .fin q') :
    q' = q ∧ q < ovfQ ∧ -ovfQ < q := by
  unfold clampOvf at h
  split at h
  · exact absurd h (by simp)
  · split at h
    · exact absurd h (by simp)
    · rename_i h1 h2
      cases h
      exact ⟨rfl, not_le.mp h1, not_le.mp h2⟩

theorem natToChars_len1 {r : ℕ} (h : r < 10) : (natToChars r).length = 1 := by
  rw [natToChars_eq_digits]
  split
  · rfl
  · rename_i hr
    rw [Nat.digits_def' (by norm_num : 1 < 10) (Nat.pos_of_ne_zero hr)]
    have : r / 10 = 0 := Nat.div_eq_of_lt h
    rw [this]
    simp

theorem natToChars_len2 {r : ℕ} (h10 : 10 ≤ r) (h : r < 100) :
    (natToChars r).length = 2 := by
  rw [natToChars_eq_digits]
  rw [if_neg (by omega)]
  rw [Nat.digits_def' (by norm_num : 1 < 10) (by omega)]
  have h1 : 0 < r / 10 := Nat.div_pos h10 (by norm_num)
  rw [Nat.digits_def' (by norm_num : 1 < 10) h1]
  have : r / 10 / 10 = 0 := by omega
  rw [this]
  simp

theorem pad2_all_digit (r : ℕ) : ∀ c ∈ pad2 r, isDigitCh c = true := by
  intro c hc
  unfold pad2 at hc
  split at hc
  · rcases List.mem_cons.mp hc with h | h
    · subst h; rfl
    · exact natToChars_all_digit _ c h
  · exact natToChars_all_digit _ c hc

theorem pad2_length {r : ℕ} (h : r < 100) : (pad2 r).length = 2 := by
  unfold pad2
  split
  · rename_i h10
    simp [natToChars_len1 h10]
  · rename_i h10
    exact natToChars_len2 (by omega) h

theorem digitsToNat_pad2 (r : ℕ) : digitsToNat (pad2 r) = r := by
  unfold pad2
  split
  · show digitsToNat (['0'] ++ natToChars r) = r
    rw [digitsToNat_append, digitsToNat_natToChars]
    have h0 : digitsToNat ['0'] = 0 := by decide
    rw [h0]
    ring
  · exact digitsToNat_natToChars r

theorem parseUnsignedDec_fixed2Str (n : ℕ) :
    parseUnsignedDec (fixed2Str n) = some ((n : ℚ) / 100) := by
  have hsplit := takeWhile_append_all
    (r := '.' :: pad2 (n % 100)) (p := isDigitCh)
    (fun c hc => by
      simp only [List.head?_cons, Option.some.injEq] at hc
      subst hc; decide)
    (natToChars (n / 100)) (natToChars_all_digit _)
  have hfp : (pad2 (n % 100)).takeWhile isDigitCh = pad2 (n % 100) :=
    List.takeWhile_eq_self_iff.mpr (fun c hc => pad2_all_digit _ c hc)
  have hfpd : (pad2 (n % 100)).dropWhile isDigitCh = [] :=
    List.dropWhile_eq_nil_iff.mpr (fun c hc => by simp [pad2_all_digit _ c hc])
  have hne : (natToChars (n / 100)).isEmpty = false := by
    rcases hx : natToChars (n / 100) with _ | _
    · exact absurd hx (natToChars_ne_nil _)
    · rfl
  unfold parseUnsignedDec fixed2Str
  simp only [hsplit.1, hsplit.2, fracSplit, hfp, hfpd, hne, Bool.false_and,
    Bool.false_eq_true, if_false]
  congr 1
  rw [digitsToNat_append, digitsToNat_natToChars, digitsToNat_pad2,
    pad2_length (Nat.mod_lt _ (by norm_num))]
  show ((n / 100 * 10 ^ 2 + n % 100 : ℕ) : ℚ) * (10 : ℚ) ^ (parseExp [] - 2) = (n : ℚ) / 100
  have hval : n / 100 * 10 ^ 2 + n % 100 = n := by omega
  rw [hval]
  show (n : ℚ) * (10 : ℚ) ^ (0 - 2 : ℤ) = (n : ℚ) / 100
  norm_num
  ring

theorem fixed2Str_head_digit (n : ℕ) :
    ∃ c t, fixed2Str n = c :: t ∧ isDigitCh c = true := by
  unfold fixed2Str
  rcases hD : natToChars (n / 100) with _ | ⟨c, t⟩
  · exact absurd hD (natToChars_ne_nil _)
  · refine ⟨c, t ++ '.' :: pad2 (n % 100), by simp, ?_⟩
    exact natToChars_all_digit _ c (by rw [hD]; simp)

theorem jsParseFloat_of_digit_head {c : Char} {t : List Char} (hc : isDigitCh c = true) :
    jsParseFloat (c :: t) =
      (match parseUnsignedDec (c :: t) with
       | none => JSNum.nan
       | some q => clampOvf q) := by
  simp only [jsParseFloat, dropWhile_not_head (digit_not_ws hc), readSign_digit hc,
    infinity_not_prefix hc, Bool.false_eq_true, if_false]

theorem jsParseFloat_fixed2Str {n : ℕ} (h : n < 10 ^ 23) :
    jsParseFloat (fixed2Str n) = .fin ((n : ℚ) / 100) := by
  obtain ⟨c, t, hct, hc⟩ := fixed2Str_head_digit n
  rw [hct, jsParseFloat_of_digit_head hc, ← hct, parseUnsignedDec_fixed2Str]
  show clampOvf ((n : ℚ) / 100) = .fin ((n : ℚ) / 100)
  refine clampOvf_fin ?_ ?_
  · have hn : (n : ℚ) < 10 ^ 23 := by exact_mod_cast h
    have : (n : ℚ) / 100 < 10 ^ 21 := by linarith
    linarith [ten_pow21_lt_ovfQ]
  · have : (0 : ℚ) ≤ (n : ℚ) / 100 := by positivity
    linarith [ovfQ_pos]

theorem floor_add_half (n : ℤ) : ⌊(n : ℚ) + 1 / 2⌋ = n := by
  rw [Int.floor_eq_iff]
  constructor
  · linarith
  · linarith

theorem floor_100_div (n : ℕ) : ⌊100 * ((n : ℚ) / 100) + 1 / 2⌋ = (n : ℤ) := by
  have h1 : 100 * ((n : ℚ) / 100) = ((n : ℤ) : ℚ) := by push_cast; ring
  rw [h1, floor_add_half]

/-! ### Finite-decimal rationals and the exponent search -/

theorem dvd_ten_pow_self (d : ℕ) : ∀ k : ℕ, d ∣ 10 ^ k → d ∣ 10 ^ d := by
  induction d using Nat.strong_induction_on with
  | _ d ih =>
    intro k hk
    rcases Nat.eq_zero_or_pos d with rfl | hd0
    · exact absurd (Nat.eq_zero_of_zero_dvd hk) (by positivity)
    rcases Nat.lt_or_ge d 2 with hd1 | hd2
    · interval_cases d
      · exact one_dvd _
    · obtain ⟨p, hp, hpd⟩ := Nat.exists_prime_and_dvd (by omega : d ≠ 1)
      have hp10 : p ∣ 10 := hp.dvd_of_dvd_pow (hpd.trans hk)
      obtain ⟨d', hd'⟩ := hpd
      have hp2 : 2 ≤ p := hp.two_le
      have hd'pos : 0 < d' := by
        rcases Nat.eq_zero_or_pos d' with rfl | h
        · omega
        · exact h
      have hd'lt : d' < d := by
        have h2 : 2 * d' ≤ p * d' := Nat.mul_le_mul_right d' hp2
        rw [← hd'] at h2
        omega
      have hd'dvd : d' ∣ 10 ^ k :=
        dvd_trans ⟨p, by rw [hd', Nat.mul_comm]⟩ hk
      have ih' : d' ∣ 10 ^ d' := ih d' hd'lt k hd'dvd
      have h1 : d ∣ 10 ^ (d' + 1) := by
        rw [hd', pow_succ, mul_comm (10 ^ d') 10]
        exact mul_dvd_mul hp10 ih'
      exact h1.trans (pow_dvd_pow 10 (by omega))

theorem rat_mul_den {q : ℚ} : q * (q.den : ℚ) = (q.num : ℚ) := by
  have hden : (q.den : ℚ) ≠ 0 := by exact_mod_cast q.den_ne_zero
  conv_lhs => lhs; rw [← Rat.num_div_den q]
  exact div_mul_cancel₀ _ hden

theorem den_one_of_den_dvd {q : ℚ} {n : ℕ} (h : q.den ∣ n) : (q * (n : ℚ)).den = 1 := by
  obtain ⟨t, ht⟩ := h
  have hqn : q * (n : ℚ) = ((q.num * t : ℤ) : ℚ) := by
    rw [ht]
    push_cast
    rw [← mul_assoc, rat_mul_den]
  rw [hqn, Rat.den_intCast]

theorem den_dvd_of_den_one {q : ℚ} {k : ℕ} (h : (q * (10 : ℚ) ^ k).den = 1) :
    q.den ∣ 10 ^ k := by
  have hm : ((q * (10 : ℚ) ^ k).num : ℚ) = q * (10 : ℚ) ^ k :=
    (Rat.den_eq_one_iff _).mp h
  have hpow : ((10 : ℚ) ^ k) ≠ 0 := by positivity
  have hq : q = ((q * (10 : ℚ) ^ k).num : ℚ) / ((10 : ℚ) ^ k) := by
    rw [hm]
    field_simp
  have hq2 : q = Rat.divInt (q * (10 : ℚ) ^ k).num ((10 : ℤ) ^ k) := by
    rw [Rat.divInt_eq_div]
    push_cast
    exact hq
  have hdvd : ((q.den : ℤ)) ∣ (10 : ℤ) ^ k := by
    rw [hq2]
    exact Rat.den_dvd _ _
  have h2 : ((q.den : ℤ)) ∣ ((10 ^ k : ℕ) : ℤ) := by push_cast; exact hdvd
  exact_mod_cast h2

theorem decK_spec (q : ℚ) (hdec : ∃ k : ℕ, (q * (10 : ℚ) ^ k).den = 1) :
    (q * (10 : ℚ) ^ decK q).den = 1 := by
  obtain ⟨k0, hk0⟩ := hdec
  have hdvd : q.den ∣ 10 ^ q.den := dvd_ten_pow_self q.den k0 (den_dvd_of_den_one hk0)
  have hden : (q * (10 : ℚ) ^ q.den).den = 1 := by
    have h1 := den_one_of_den_dvd (n := 10 ^ q.den) hdvd
    have hcast : ((10 ^ q.den : ℕ) : ℚ) = (10 : ℚ) ^ q.den := by push_cast; ring
    rwa [hcast] at h1
  have hmem : q.den ∈ List.range (q.den + 1) := List.mem_range.mpr (by omega)
  cases hfind : (List.range (q.den + 1)).find?
      (fun k => decide ((q * (10 : ℚ) ^ k).den = 1)) with
  | none =>
    have h2 := List.find?_eq_none.mp hfind q.den hmem
    simp only [decide_eq_true_eq] at h2
    exact absurd hden h2
  | some k =>
    have hpk := List.find?_some hfind
    simp only [decide_eq_true_eq] at hpk
    have hdk : decK q = k := by
      unfold decK
      rw [hfind]
      rfl
    rw [hdk]
    exact hpk

/-! ### Round-tripping the exponential rendering -/

theorem digitsToNat_all_zero {Z : List Char} (h : ∀ c ∈ Z, c = '0') :
    digitsToNat Z = 0 := by
  induction Z with
  | nil => rfl
  | cons c t ih =>
    have hc : c = '0' := h c (by simp)
    have ht := ih fun c' hc' => h c' (by simp [hc'])
    show digitsToNat ([c] ++ t) = 0
    rw [digitsToNat_append, ht, hc]
    have : digitsToNat ['0'] = 0 := by decide
    rw [this]
    ring

theorem stripZeros_decomp (l : List Char) :
    ∃ Z, l = stripZeros l ++ Z ∧ ∀ c ∈ Z, c = '0' := by
  refine ⟨List.rtakeWhile (fun c => c = '0') l, ?_, ?_⟩
  · exact (rdropWhile_append_rtakeWhile _ l).symm
  · intro c hc
    have := List.mem_rtakeWhile_imp hc
    simpa using this

theorem natToChars_length_ge {m t : ℕ} (h : 10 ^ t ≤ m) :
    t + 1 ≤ (natToChars m).length := by
  have hm0 : m ≠ 0 := by
    have : 0 < 10 ^ t := by positivity
    omega
  rw [natToChars_eq_digits]
  rw [if_neg hm0, List.length_map, List.length_reverse,
    Nat.digits_len 10 m (by norm_num) hm0]
  have := (Nat.pow_le_iff_le_log (by norm_num) hm0).mp h
  omega

theorem isEmpty_false_of_ne_nil {l : List Char} (h : l ≠ []) : l.isEmpty = false := by
  cases l with
  | nil => exact absurd rfl h
  | cons c t => rfl

theorem parseExp_plus (E : ℕ) : parseExp ('e' :: '+' :: natToChars E) = (E : ℤ) := by
  have hsign : readSign ('+' :: natToChars E) = (false, natToChars E) := by
    simp [readSign]
  have hds : (natToChars E).takeWhile isDigitCh = natToChars E :=
    List.takeWhile_eq_self_iff.mpr (natToChars_all_digit E)
  have hne : (natToChars E).isEmpty = false :=
    isEmpty_false_of_ne_nil (natToChars_ne_nil E)
  simp only [parseExp]
  rw [if_pos (Or.inl trivial)]
  simp only [hsign, hds, hne, Bool.false_eq_true, if_false, digitsToNat_natToChars]

theorem fracSplit_dot (t : List Char) :
    fracSplit ('.' :: t) = (t.takeWhile isDigitCh, t.dropWhile isDigitCh) := rfl

theorem fracSplit_ne_dot {c : Char} (t : List Char) (hc : c ≠ '.') :
    fracSplit (c :: t) = ([], c :: t) := by
  unfold fracSplit
  split
  · rename_i t' heq
    rw [List.cons.injEq] at heq
    exact absurd heq.1 hc
  · rfl

theorem parseUnsignedDec_expForm (h : Char) (t : List Char) (E : ℕ)
    (hh : isDigitCh h = true) (ht : ∀ c ∈ t, isDigitCh c = true) :
    parseUnsignedDec (h :: ((if t.isEmpty then [] else '.' :: t) ++
        'e' :: '+' :: natToChars E))
      = some ((digitsToNat (h :: t) : ℚ) * (10 : ℚ) ^ ((E : ℤ) - (t.length : ℤ))) := by
  cases t with
  | nil =>
    have hsplit := takeWhile_append_all
      (r := 'e' :: '+' :: natToChars E) (p := isDigitCh)
      (fun c hc => by
        simp only [List.head?_cons, Option.some.injEq] at hc
        subst hc; decide)
      [h] (fun c hc => by
        simp only [List.mem_singleton] at hc
        subst hc; exact hh)
    have hfs : fracSplit ('e' :: '+' :: natToChars E) = ([], 'e' :: '+' :: natToChars E) :=
      fracSplit_ne_dot _ (by decide)
    show parseUnsignedDec ([h] ++ ('e' :: '+' :: natToChars E)) = _
    unfold parseUnsignedDec
    simp only [hsplit.1, hsplit.2, hfs, List.isEmpty_cons, Bool.false_and,
      Bool.false_eq_true, if_false, parseExp_plus, List.append_nil, List.length_nil]
  | cons c0 t0 =>
    have hsplit := takeWhile_append_all
      (r := '.' :: ((c0 :: t0) ++ 'e' :: '+' :: natToChars E)) (p := isDigitCh)
      (fun c hc => by
        simp only [List.head?_cons, Option.some.injEq] at hc
        subst hc; decide)
      [h] (fun c hc => by
        simp only [List.mem_singleton] at hc
        subst hc; exact hh)
    have hsplit2 := takeWhile_append_all
      (r := 'e' :: '+' :: natToChars E) (p := isDigitCh)
      (fun c hc => by
        simp only [List.head?_cons, Option.some.injEq] at hc
        subst hc; decide)
      (c0 :: t0) ht
    have hfs : fracSplit ('.' :: ((c0 :: t0) ++ 'e' :: '+' :: natToChars E)) =
        (c0 :: t0, 'e' :: '+' :: natToChars E) := by
      rw [fracSplit_dot, hsplit2.1, hsplit2.2]
    show parseUnsignedDec ([h] ++ ('.' :: ((c0 :: t0) ++ 'e' :: '+' :: natToChars E))) = _
    unfold parseUnsignedDec
    simp only [hsplit.1, hsplit.2, hfs, List.isEmpty_cons, Bool.false_and,
      Bool.false_eq_true, if_false, parseExp_plus]
    rfl

theorem jsParseFloat_expStrCore {m k : ℕ} {q : ℚ}
    (hmq : (m : ℚ) = q * (10 : ℚ) ^ k)
    (hm_lb : 10 ^ (20 + k) ≤ m)
    (hq0 : 0 < q) (hovf : q < ovfQ) :
    jsParseFloat (expStrCore m k) = .fin q := by
  obtain ⟨Z, hZdecomp, hZ0⟩ := stripZeros_decomp (natToChars m)
  have hm0 : 0 < m := by
    have : 0 < 10 ^ (20 + k) := by positivity
    omega
  unfold expStrCore
  cases hT : stripZeros (natToChars m) with
  | nil =>
    exfalso
    rw [hT, List.nil_append] at hZdecomp
    have h0 : digitsToNat (natToChars m) = 0 := by
      rw [hZdecomp]; exact digitsToNat_all_zero hZ0
    rw [digitsToNat_natToChars] at h0
    omega
  | cons h t =>
    rw [hT] at hZdecomp
    have hTsub : ∀ c ∈ h :: t, isDigitCh c = true := by
      intro c hc
      apply natToChars_all_digit m c
      rw [hZdecomp]
      exact List.mem_append_left _ hc
    have hh : isDigitCh h = true := hTsub h (by simp)
    have htd : ∀ c ∈ t, isDigitCh c = true := fun c hc => hTsub c (by simp [hc])
    rw [jsParseFloat_of_digit_head hh, parseUnsignedDec_expForm h t _ hh htd]
    show clampOvf ((digitsToNat (h :: t) : ℚ) * (10 : ℚ) ^
        ((((natToChars m).length - 1 - k : ℕ) : ℤ) - (t.length : ℤ))) = JSNum.fin q
    have hLlen : 21 + k ≤ (natToChars m).length := by
      have := natToChars_length_ge hm_lb
      omega
    have hlen : (natToChars m).length = (t.length + 1) + Z.length := by
      rw [hZdecomp]
      simp [List.length_append]
      ring
    have hval : digitsToNat (h :: t) * 10 ^ Z.length = m := by
      have h1 := digitsToNat_natToChars m
      rw [hZdecomp, digitsToNat_append, digitsToNat_all_zero hZ0, add_zero] at h1
      exact h1
    have hE : ((((natToChars m).length - 1 - k : ℕ) : ℤ) - (t.length : ℤ))
        = (Z.length : ℤ) - (k : ℤ) := by omega
    rw [hE]
    have hvq : (digitsToNat (h :: t) : ℚ) * (10 : ℚ) ^ ((Z.length : ℤ) - (k : ℤ)) = q := by
      have h10 : (10 : ℚ) ≠ 0 := by norm_num
      rw [zpow_sub₀ h10, zpow_natCast, zpow_natCast]
      have hmcast : (digitsToNat (h :: t) : ℚ) * (10 : ℚ) ^ Z.length = (m : ℚ) := by
        rw [← hval]
        push_cast
        ring
      rw [mul_div_assoc', div_eq_iff (pow_ne_zero k h10), hmcast, hmq]
    rw [hvq]
    exact clampOvf_fin hovf (by linarith [ovfQ_pos])

/-! ### Evaluating the parsers on concrete strings -/

theorem jsToString_str (s : List Char) : jsToString (.str s) = s := by
  simp [jsToString]

theorem readSign_other {c : Char} {t : List Char} (h1 : c ≠ '-') (h2 : c ≠ '+') :
    readSign (c :: t) = (false, c :: t) := by
  simp only [readSign]
  rw [if_neg h1, if_neg h2]

theorem ten_pow30_lt_ovfQ : (10 : ℚ) ^ 30 < ovfQ := by norm_num [ovfQ]

theorem clampOvf_of_lt {q : ℚ} (h1 : q < 10 ^ 30) (h2 : -(10 ^ 30) < q) :
    clampOvf q = .fin q := by
  refine clampOvf_fin (lt_trans h1 ten_pow30_lt_ovfQ) ?_
  have := ten_pow30_lt_ovfQ
  linarith

theorem parseUnsignedDec_eval {s ip r1 fp r2 : List Char}
    (hip : s.takeWhile isDigitCh = ip) (hr1 : s.dropWhile isDigitCh = r1)
    (hfs : fracSplit r1 = (fp, r2)) (hne : (ip.isEmpty && fp.isEmpty) = false) :
    parseUnsignedDec s =
      some ((digitsToNat (ip ++ fp) : ℚ) * (10 : ℚ) ^ (parseExp r2 - (fp.length : ℤ))) := by
  unfold parseUnsignedDec
  simp only [hip, hr1, hfs, hne, Bool.false_eq_true, if_false]

theorem jsParseFloat_simple {c : Char} {t ip fp r2 : List Char} {q : ℚ}
    (hc : isDigitCh c = true)
    (hip : (c :: t).takeWhile isDigitCh = ip)
    (hfs : fracSplit ((c :: t).dropWhile isDigitCh) = (fp, r2))
    (hv : (digitsToNat (ip ++ fp) : ℚ) * (10 : ℚ) ^ (parseExp r2 - (fp.length : ℤ)) = q)
    (h1 : q < 10 ^ 30) (h2 : -(10 ^ 30) < q) :
    jsParseFloat (c :: t) = .fin q := by
  have hipne : ip.isEmpty = false := by
    rw [← hip]
    simp [List.takeWhile_cons, hc]
  rw [jsParseFloat_of_digit_head hc,
    parseUnsignedDec_eval hip rfl hfs (by rw [hipne]; rfl), hv]
  exact clampOvf_of_lt h1 h2

theorem jsParseInt10_of_digit_head {c : Char} {t : List Char} (hc : isDigitCh c = true) :
    jsParseInt10 (c :: t) =
      clampOvf ((digitsToNat ((c :: t).takeWhile isDigitCh) : ℤ) : ℚ) := by
  have hne : ((c :: t).takeWhile isDigitCh).isEmpty = false := by
    simp [List.takeWhile_cons, hc]
  simp only [jsParseInt10, dropWhile_not_head (digit_not_ws hc), readSign_digit hc,
    hne, Bool.false_eq_true, if_false]

theorem jsParseInt10_simple {c : Char} {t : List Char} {n : ℕ}
    (hc : isDigitCh c = true)
    (hd : digitsToNat ((c :: t).takeWhile isDigitCh) = n)
    (h1 : (n : ℚ) < 10 ^ 30) :
    jsParseInt10 (c :: t) = .fin (n : ℚ) := by
  rw [jsParseInt10_of_digit_head hc, hd]
  have : (((n : ℤ)) : ℚ) = (n : ℚ) := by push_cast; rfl
  rw [this]
  refine clampOvf_of_lt h1 ?_
  have : (0 : ℚ) ≤ (n : ℚ) := by positivity
  linarith

theorem floor_eval {q : ℚ} {z : ℤ} (h1 : (z : ℚ) ≤ q) (h2 : q < z + 1) : ⌊q⌋ = z :=
  Int.floor_eq_iff.mpr ⟨h1, h2⟩

/-! ### Inversion: what a successful float parse can be -/

theorem parseUnsignedDec_def (s : List Char) :
    parseUnsignedDec s =
      if ((s.takeWhile isDigitCh).isEmpty &&
          ((fracSplit (s.dropWhile isDigitCh)).1).isEmpty) = true then none
      else some ((digitsToNat (s.takeWhile isDigitCh ++
          (fracSplit (s.dropWhile isDigitCh)).1) : ℚ) *
        (10 : ℚ) ^ (parseExp (fracSplit (s.dropWhile isDigitCh)).2 -
          (((fracSplit (s.dropWhile isDigitCh)).1.length : ℕ) : ℤ))) := rfl

theorem jsParseFloat_def (s : List Char) :
    jsParseFloat s =
      if (jstr "Infinity").isPrefixOf (readSign (s.dropWhile isJsWS)).2 = true then
        (if (readSign (s.dropWhile isJsWS)).1 = true then .ninf else .inf)
      else
        match parseUnsignedDec (readSign (s.dropWhile isJsWS)).2 with
        | none => .nan
        | some q =>
          clampOvf (if (readSign (s.dropWhile isJsWS)).1 = true then -q else q) := rfl

theorem jsParseInt10_def (s : List Char) :
    jsParseInt10 s =
      if ((readSign (s.dropWhile isJsWS)).2.takeWhile isDigitCh).isEmpty = true then .nan
      else clampOvf (((if (readSign (s.dropWhile isJsWS)).1 = true then
        -(digitsToNat ((readSign (s.dropWhile isJsWS)).2.takeWhile isDigitCh) : ℤ)
        else (digitsToNat ((readSign (s.dropWhile isJsWS)).2.takeWhile isDigitCh) : ℤ)) : ℤ)
        : ℚ) := rfl

theorem parseUnsignedDec_form {s : List Char} {q0 : ℚ}
    (h : parseUnsignedDec s = some q0) :
    ∃ (N : ℕ) (E : ℤ), q0 = (N : ℚ) * (10 : ℚ) ^ E := by
  rw [parseUnsignedDec_def] at h
  split at h
  · exact absurd h (by simp)
  · rw [Option.some.injEq] at h
    exact ⟨_, _, h.symm⟩

theorem decimal_form (N : ℕ) (E : ℤ) :
    ∃ k : ℕ, (((N : ℚ) * (10 : ℚ) ^ E) * (10 : ℚ) ^ k).den = 1 := by
  refine ⟨(-E).toNat, ?_⟩
  rcases le_or_lt 0 E with hE | hE
  · have h1 : (-E).toNat = 0 := by omega
    rw [h1, pow_zero, mul_one]
    obtain ⟨e, rfl⟩ := Int.eq_ofNat_of_zero_le hE
    rw [zpow_natCast]
    have h2 : ((N : ℚ) * (10 : ℚ) ^ e) = ((N * 10 ^ e : ℕ) : ℚ) := by push_cast; ring
    rw [h2, Rat.den_natCast]
  · have h2 : (10 : ℚ) ≠ 0 := by norm_num
    rw [mul_assoc, ← zpow_natCast (10 : ℚ) (-E).toNat, ← zpow_add₀ h2]
    have h3 : E + (((-E).toNat : ℕ) : ℤ) = 0 := by omega
    rw [h3, zpow_zero, mul_one, Rat.den_natCast]

theorem neg_decimal {q0 : ℚ} (h : ∃ k : ℕ, (q0 * (10 : ℚ) ^ k).den = 1) :
    ∃ k : ℕ, ((-q0) * (10 : ℚ) ^ k).den = 1 := by
  obtain ⟨k, hk⟩ := h
  exact ⟨k, by rw [neg_mul, Rat.neg_den]; exact hk⟩

theorem jsParseFloat_fin_inv {s : List Char} {q : ℚ} (h : jsParseFloat s = .fin q) :
    (∃ k : ℕ, (q * (10 : ℚ) ^ k).den = 1) ∧ q < ovfQ ∧ -ovfQ < q := by
  rw [jsParseFloat_def] at h
  split at h
  · split at h <;> exact absurd h (by simp)
  · cases hpu : parseUnsignedDec (readSign (s.dropWhile isJsWS)).2 with
    | none => rw [hpu] at h; exact absurd h (by simp)
    | some q0 =>
      rw [hpu] at h
      obtain ⟨hq, hlt, hgt⟩ := clampOvf_fin_inv h
      obtain ⟨N, E, hNE⟩ := parseUnsignedDec_form hpu
      have hdec0 : ∃ k : ℕ, (q0 * (10 : ℚ) ^ k).den = 1 := by
        rw [hNE]; exact decimal_form N E
      subst hq
      by_cases hb : (readSign (s.dropWhile isJsWS)).1 = true
      · rw [if_pos hb] at hlt hgt ⊢
        exact ⟨neg_decimal hdec0, hlt, hgt⟩
      · rw [if_neg hb] at hlt hgt ⊢
        exact ⟨hdec0, hlt, hgt⟩

/-! ### toMoney: structure and idempotence -/

theorem toMoney_def (v : JSVal) :
    toMoney v = match jsParseFloat (jsToString v) with
      | .fin q => if q < 0 then jstr "0.00" else toFixed2 q
      | _ => jstr "0.00" := rfl

theorem toMoney_out_cases (v : JSVal) :
    toMoney v = jstr "0.00" ∨
      ∃ q : ℚ, 0 ≤ q ∧ q < ovfQ ∧ (∃ k : ℕ, (q * (10 : ℚ) ^ k).den = 1) ∧
        toMoney v = toFixed2 q := by
  cases hp : jsParseFloat (jsToString v) with
  | nan => left; rw [toMoney_def, hp]
  | inf => left; rw [toMoney_def, hp]
  | ninf => left; rw [toMoney_def, hp]
  | fin q =>
    by_cases hneg : q < 0
    · left
      rw [toMoney_def, hp]
      show (if q < 0 then jstr "0.00" else toFixed2 q) = jstr "0.00"
      rw [if_pos hneg]
    · right
      obtain ⟨hdec, hlt, _⟩ := jsParseFloat_fin_inv hp
      refine ⟨q, not_lt.mp hneg, hlt, hdec, ?_⟩
      rw [toMoney_def, hp]
      show (if q < 0 then jstr "0.00" else toFixed2 q) = toFixed2 q
      rw [if_neg hneg]

theorem toMoney_fixed2Str {n : ℕ} (hn : n < 10 ^ 23) :
    toMoney (.str (fixed2Str n)) = toFixed2 ((n : ℚ) / 100) := by
  rw [toMoney_def, jsToString_str, jsParseFloat_fixed2Str hn]
  show (if ((n : ℚ) / 100) < 0 then jstr "0.00" else toFixed2 ((n : ℚ) / 100))
    = toFixed2 ((n : ℚ) / 100)
  rw [if_neg (not_lt.mpr (by positivity))]

theorem toMoney_toFixed2_fix {q : ℚ} (h0 : 0 ≤ q) (hovf : q < ovfQ)
    (hdec : ∃ k : ℕ, (q * (10 : ℚ) ^ k).den = 1) :
    toMoney (.str (toFixed2 q)) = toFixed2 q := by
  unfold toFixed2
  by_cases hbig : ⌊100 * q + 1 / 2⌋ < 10 ^ 23
  · rw [if_pos hbig]
    have hfl0 : 0 ≤ ⌊100 * q + 1 / 2⌋ := Int.floor_nonneg.mpr (by linarith)
    have hnlt : (⌊100 * q + 1 / 2⌋).toNat < 10 ^ 23 := by omega
    rw [toMoney_fixed2Str hnlt]
    unfold toFixed2
    rw [floor_100_div, if_pos (by exact_mod_cast hnlt), Int.toNat_natCast]
  · rw [if_neg hbig]
    have hq20 : (10 : ℚ) ^ 20 ≤ q := by
      have h1 : ((10 ^ 23 : ℤ) : ℚ) ≤ 100 * q + 1 / 2 := Int.le_floor.mp (not_lt.mp hbig)
      have h2 : ((10 ^ 23 : ℤ) : ℚ) = 10 ^ 23 := by push_cast; ring
      rw [h2] at h1
      have h3 : (10 : ℚ) ^ 23 = 100 * 10 ^ 21 := by norm_num
      have h4 : (10 : ℚ) ^ 21 - 1 / 200 ≥ 10 ^ 20 := by norm_num
      linarith
    have hq0 : 0 < q := lt_of_lt_of_le (by positivity) hq20
    have hden1 : (q * (10 : ℚ) ^ decK q).den = 1 := decK_spec q hdec
    have hppos : (0 : ℚ) < q * (10 : ℚ) ^ decK q := by positivity
    have hnumpos : 0 < (q * (10 : ℚ) ^ decK q).num := Rat.num_pos.mpr hppos
    have hmq : (((q * (10 : ℚ) ^ decK q).num.toNat : ℕ) : ℚ) = q * (10 : ℚ) ^ decK q := by
      have h7 : (((q * (10 : ℚ) ^ decK q).num.toNat : ℕ) : ℤ) = (q * (10 : ℚ) ^ decK q).num :=
        Int.toNat_of_nonneg hnumpos.le
      have h8 := (Rat.den_eq_one_iff _).mp hden1
      rw [← h8]
      exact_mod_cast h7
    have hm_lb : 10 ^ (20 + decK q) ≤ (q * (10 : ℚ) ^ decK q).num.toNat := by
      have hk : (0 : ℚ) ≤ (10 : ℚ) ^ decK q := by positivity
      have h5 : (10 : ℚ) ^ (20 + decK q) ≤ q * (10 : ℚ) ^ decK q := by
        rw [pow_add]
        exact mul_le_mul_of_nonneg_right hq20 hk
      rw [← hmq] at h5
      exact_mod_cast h5
    have hparse : jsParseFloat (expStr q) = .fin q := by
      unfold expStr
      exact jsParseFloat_expStrCore hmq hm_lb hq0 hovf
    rw [toMoney_def, jsToString_str, hparse]
    show (if q < 0 then jstr "0.00" else toFixed2 q) = expStr q
    rw [if_neg (not_lt.mpr hq0.le)]
    unfold toFixed2
    rw [if_neg hbig]

theorem toFixed2_zero : toFixed2 0 = jstr "0.00" := by
  unfold toFixed2
  rw [show ⌊100 * (0 : ℚ) + 1 / 2⌋ = 0 from floor_eval (by norm_num) (by norm_num),
    if_pos (by norm_num)]
  decide

theorem toMoney_zeroStr : toMoney (.str (jstr "0.00")) = jstr "0.00" := by
  rw [show jstr "0.00" = toFixed2 0 from toFixed2_zero.symm]
  refine toMoney_toFixed2_fix le_rfl ovfQ_pos ⟨0, ?_⟩
  norm_num

theorem toMoney_idem (v : JSVal) : toMoney (.str (toMoney v)) = toMoney v := by
  rcases toMoney_out_cases v with h | ⟨q, h0, hovf, hdec, h⟩
  · rw [h]; exact toMoney_zeroStr
  · rw [h]; exact toMoney_toFixed2_fix h0 hovf hdec

/-! ### safeText: character classes, length bound, conditional idempotence -/

theorem collapseCtlAux_no_ctl (l : List Char) :
    ∀ (b : Bool), ∀ c ∈ collapseCtlAux b l, isCtl c = false := by
  induction l with
  | nil => intro b c hc; simp [collapseCtlAux] at hc
  | cons x t ih =>
    intro b c hc
    unfold collapseCtlAux at hc
    by_cases hx : isCtl x = true
    · rw [if_pos hx] at hc
      split at hc
      · exact ih true c hc
      · rcases List.mem_cons.mp hc with h | h
        · subst h; rfl
        · exact ih true c h
    · rw [if_neg hx] at hc
      rcases List.mem_cons.mp hc with h | h
      · subst h; exact Bool.eq_false_iff.mpr hx
      · exact ih false c h

theorem collapseCtlAux_mem (l : List Char) :
    ∀ (b : Bool), ∀ c ∈ collapseCtlAux b l, c = ' ' ∨ c ∈ l := by
  induction l with
  | nil => intro b c hc; simp [collapseCtlAux] at hc
  | cons x t ih =>
    intro b c hc
    unfold collapseCtlAux at hc
    by_cases hx : isCtl x = true
    · rw [if_pos hx] at hc
      split at hc
      · rcases ih true c hc with h | h
        · exact Or.inl h
        · exact Or.inr (by simp [h])
      · rcases List.mem_cons.mp hc with h | h
        · exact Or.inl h
        · rcases ih true c h with h' | h'
          · exact Or.inl h'
          · exact Or.inr (by simp [h'])
    · rw [if_neg hx] at hc
      rcases List.mem_cons.mp hc with h | h
      · exact Or.inr (by simp [h])
      · rcases ih false c h with h' | h'
        · exact Or.inl h'
        · exact Or.inr (by simp [h'])

theorem collapseCtlAux_id (l : List Char) (h : ∀ c ∈ l, isCtl c = false) :
    ∀ b : Bool, collapseCtlAux b l = l := by
  induction l with
  | nil => intro b; rfl
  | cons x t ih =>
    intro b
    unfold collapseCtlAux
    rw [if_neg (by rw [h x (by simp)]; simp)]
    rw [ih (fun c hc => h c (by simp [hc])) false]

theorem stripAngle_mem {l : List Char} {c : Char} (h : c ∈ stripAngle l) :
    c ≠ '<' ∧ c ≠ '>' := by
  have h2 := (List.mem_filter.mp h).2
  constructor <;> (intro hEq; subst hEq; simp at h2)

theorem stripAngle_id {l : List Char} (h : ∀ c ∈ l, c ≠ '<' ∧ c ≠ '>') :
    stripAngle l = l := by
  apply List.filter_eq_self.mpr
  intro c hc
  simp [(h c hc).1, (h c hc).2]

theorem jsTrim_subset {l : List Char} {c : Char} (h : c ∈ jsTrim l) : c ∈ l := by
  unfold jsTrim at h
  have h1 : c ∈ (l.dropWhile isJsWS) :=
    (List.rdropWhile_prefix isJsWS (l.dropWhile isJsWS)).subset h
  exact (List.dropWhile_suffix isJsWS).subset h1

theorem safeText_str_eq (s : List Char) (maxLen : ℕ) :
    safeText (.str s) maxLen =
      if maxLen < (jsTrim (collapseCtl (stripAngle s))).length then
        (jsTrim (collapseCtl (stripAngle s))).take maxLen
      else jsTrim (collapseCtl (stripAngle s)) := rfl

theorem safeText_str_subset {s : List Char} {maxLen : ℕ} {c : Char}
    (h : c ∈ safeText (.str s) maxLen) : c ∈ jsTrim (collapseCtl (stripAngle s)) := by
  rw [safeText_str_eq] at h
  split at h
  · exact (List.take_subset _ _) h
  · exact h

theorem safeText_chars {s : List Char} {maxLen : ℕ} :
    ∀ c ∈ safeText (.str s) maxLen, isCtl c = false ∧ c ≠ '<' ∧ c ≠ '>' := by
  intro c hc
  have h1 : c ∈ collapseCtl (stripAngle s) := jsTrim_subset (safeText_str_subset hc)
  refine ⟨collapseCtlAux_no_ctl _ false c h1, ?_⟩
  rcases collapseCtlAux_mem _ false c h1 with h | h
  · subst h; exact ⟨by decide, by decide⟩
  · exact stripAngle_mem h

theorem safeText_length (s : List Char) (maxLen : ℕ) :
    (safeText (.str s) maxLen).length ≤ maxLen := by
  rw [safeText_str_eq]
  split
  · rw [List.length_take]
    omega
  · omega

theorem prefix_head? {l₁ l₂ : List Char} {c : Char} (hp : l₁ <+: l₂)
    (h : l₁.head? = some c) : l₂.head? = some c := by
  obtain ⟨t, rfl⟩ := hp
  cases l₁ with
  | nil => simp at h
  | cons x r => simpa using h

theorem take_head? {l : List Char} {n : ℕ} {c : Char}
    (h : (l.take n).head? = some c) : l.head? = some c :=
  prefix_head? (List.take_prefix n l) h

theorem dropWhile_head_not {p : Char → Bool} {l : List Char} {c : Char}
    (h : (l.dropWhile p).head? = some c) : p c = false := by
  induction l with
  | nil => simp at h
  | cons x t ih =>
    rw [List.dropWhile_cons] at h
    split at h
    · exact ih h
    · rename_i hx
      simp only [List.head?_cons, Option.some.injEq] at h
      subst h
      exact Bool.eq_false_iff.mpr hx

theorem safeText_head_not_ws {s : List Char} {maxLen : ℕ} {c : Char}
    (h : (safeText (.str s) maxLen).head? = some c) : isJsWS c = false := by
  have h1 : (jsTrim (collapseCtl (stripAngle s))).head? = some c := by
    rw [safeText_str_eq] at h
    split at h
    · exact take_head? h
    · exact h
  unfold jsTrim at h1
  have h2 := prefix_head? (List.rdropWhile_prefix isJsWS _) h1
  exact dropWhile_head_not h2

theorem jsTrim_id {l : List Char}
    (hhead : ∀ c, l.head? = some c → isJsWS c = false)
    (hlast : ∀ c, l.getLast? = some c → isJsWS c = false) : jsTrim l = l := by
  unfold jsTrim
  have h1 : l.dropWhile isJsWS = l := by
    cases hl : l with
    | nil => rfl
    | cons x t => exact dropWhile_not_head (hhead x (by rw [hl]; rfl))
  rw [h1]
  rw [List.rdropWhile_eq_self_iff]
  intro hl
  have := hlast (l.getLast hl) (List.getLast?_eq_getLast l hl)
  simp [this]

theorem safeText_nonstr {v : JSVal} {maxLen : ℕ} (h : ∀ s, v ≠ .str s) :
    safeText v maxLen = [] := by
  cases v with
  | str s => exact absurd rfl (h s)
  | undefined => rfl
  | null => rfl
  | bool b => rfl
  | num n => rfl
  | arr l => rfl
  | obj o => rfl

theorem safeText_empty_str (maxLen : ℕ) : safeText (.str []) maxLen = [] := by
  rw [safeText_str_eq]
  have h1 : jsTrim (collapseCtl (stripAngle [])) = [] := rfl
  rw [h1]
  rw [if_neg (by simp)]

theorem safeText_idem {v : JSVal} {maxLen : ℕ}
    (h : ∀ c, (safeText v maxLen).getLast? = some c → isJsWS c = false) :
    safeText (.str (safeText v maxLen)) maxLen = safeText v maxLen := by
  cases v with
  | str s =>
    have hchars := @safeText_chars s maxLen
    have h1 : stripAngle (safeText (.str s) maxLen) = safeText (.str s) maxLen :=
      stripAngle_id fun c hc => (hchars c hc).2
    have h2 : collapseCtl (stripAngle (safeText (.str s) maxLen))
        = safeText (.str s) maxLen := by
      rw [h1]
      exact collapseCtlAux_id _ (fun c hc => (hchars c hc).1) false
    have h3 : jsTrim (collapseCtl (stripAngle (safeText (.str s) maxLen)))
        = safeText (.str s) maxLen := by
      rw [h2]
      exact jsTrim_id (fun c hc => safeText_head_not_ws hc) h
    rw [safeText_str_eq (safeText (.str s) maxLen) maxLen, h3,
      if_neg (not_lt.mpr (safeText_length s maxLen))]
  | undefined =>
    rw [show safeText JSVal.undefined maxLen = [] from rfl]
    exact safeText_empty_str maxLen
  | null =>
    rw [show safeText JSVal.null maxLen = [] from rfl]
    exact safeText_empty_str maxLen
  | bool b =>
    rw [show safeText (JSVal.bool b) maxLen = [] from rfl]
    exact safeText_empty_str maxLen
  | num n =>
    rw [show safeText (JSVal.num n) maxLen = [] from rfl]
    exact safeText_empty_str maxLen
  | arr l =>
    rw [show safeText (JSVal.arr l) maxLen = [] from rfl]
    exact safeText_empty_str maxLen
  | obj o =>
    rw [show safeText (JSVal.obj o) maxLen = [] from rfl]
    exact safeText_empty_str maxLen

/-! ### toInt: bounds, failure, conditional idempotence -/

theorem toInt_def (v : JSVal) (lo hi : ℚ) :
    toInt v lo hi = match jsParseInt10 (jsToString v) with
      | .fin n => min (max n lo) hi
      | _ => 0 := rfl

theorem toInt_of_fin {v : JSVal} {q : ℚ} {lo hi : ℚ}
    (h : jsParseInt10 (jsToString v) = .fin q) :
    toInt v lo hi = min (max q lo) hi := by
  rw [toInt_def, h]

theorem toInt_of_bad {v : JSVal} {lo hi : ℚ}
    (h : jsParseInt10 (jsToString v) = .nan ∨ jsParseInt10 (jsToString v) = .inf ∨
      jsParseInt10 (jsToString v) = .ninf) :
    toInt v lo hi = 0 := by
  rcases h with h | h | h <;> rw [toInt_def, h]

theorem toInt_bounds {v : JSVal} {q : ℚ} (h : jsParseInt10 (jsToString v) = .fin q) :
    1 ≤ toInt v 1 9999 ∧ toInt v 1 9999 ≤ 9999 := by
  rw [toInt_of_fin h]
  constructor
  · exact le_min (le_max_right q 1) (by norm_num)
  · exact min_le_right _ _

theorem jsParseInt10_fin_int {s : List Char} {q : ℚ} (h : jsParseInt10 s = .fin q) :
    ∃ n : ℤ, q = (n : ℚ) := by
  rw [jsParseInt10_def] at h
  split at h
  · exact absurd h (by simp)
  · obtain ⟨hq, _, _⟩ := clampOvf_fin_inv h
    exact ⟨_, hq⟩

theorem decBody_zero (m : ℕ) : decBody m 0 = natToChars m := by
  unfold decBody
  rw [if_neg (by have := natToChars_ne_nil m; cases h : natToChars m with
    | nil => exact absurd h this
    | cons a t => simp [h])]
  unfold decPoint
  rw [if_pos rfl]

theorem ratToChars_natCast {m : ℕ} (hm : 0 < m) : ratToChars (m : ℚ) = natToChars m := by
  unfold ratToChars
  rw [if_neg (by exact_mod_cast hm.ne'),
    if_neg (not_lt.mpr (by positivity : (0 : ℚ) ≤ (m : ℚ)))]
  have hden : ((m : ℚ)).den = 1 := Rat.den_natCast m
  have hdecK : decK (m : ℚ) = 0 := by
    unfold decK
    rw [hden, show List.range (1 + 1) = [0, 1] from rfl, List.find?_cons_of_pos]
    · rfl
    · simp [hden]
  rw [hdecK, pow_zero, mul_one, abs_of_nonneg (by positivity : (0 : ℚ) ≤ (m : ℚ)),
    Rat.num_natCast, Int.toNat_natCast]
  exact decBody_zero m

theorem jsParseInt10_natToChars {m : ℕ} (h1 : (m : ℚ) < 10 ^ 30) :
    jsParseInt10 (natToChars m) = .fin (m : ℚ) := by
  rcases hL : natToChars m with _ | ⟨c, t⟩
  · exact absurd hL (natToChars_ne_nil m)
  · have hc : isDigitCh c = true := natToChars_all_digit m c (by rw [hL]; simp)
    have hds : ((c :: t).takeWhile isDigitCh) = c :: t :=
      List.takeWhile_eq_self_iff.mpr (fun x hx =>
        natToChars_all_digit m x (by rw [hL]; exact hx))
    refine jsParseInt10_simple hc ?_ h1
    rw [hds, ← hL, digitsToNat_natToChars]

theorem toInt_idem_of_fin {v : JSVal} {q : ℚ} (h : jsParseInt10 (jsToString v) = .fin q) :
    toInt (.num (.fin (toInt v 1 9999))) 1 9999 = toInt v 1 9999 := by
  obtain ⟨n, rfl⟩ := jsParseInt10_fin_int h
  rw [toInt_of_fin h]
  have hmm : min (max ((n : ℚ)) 1) 9999 = ((min (max n 1) 9999 : ℤ) : ℚ) := by
    push_cast
    rfl
  rw [hmm]
  have hz1 : 1 ≤ min (max n 1) 9999 := le_min (le_max_right n 1) (by norm_num)
  have hz2 : min (max n 1) 9999 ≤ 9999 := min_le_right _ _
  have hzn : ((min (max n 1) 9999 : ℤ) : ℚ) = (((min (max n 1) 9999).toNat : ℕ) : ℚ) := by
    exact_mod_cast (congrArg (fun z : ℤ => (z : ℚ))
      (Int.toNat_of_nonneg (by omega : (0 : ℤ) ≤ min (max n 1) 9999))).symm
  have hJs : jsToString (.num (.fin ((min (max n 1) 9999 : ℤ) : ℚ)))
      = ratToChars ((min (max n 1) 9999 : ℤ) : ℚ) := by
    simp [jsToString, numToChars]
  have hparse : jsParseInt10 (jsToString (.num (.fin ((min (max n 1) 9999 : ℤ) : ℚ))))
      = .fin ((((min (max n 1) 9999).toNat : ℕ)) : ℚ) := by
    rw [hJs, hzn, ratToChars_natCast (by omega)]
    refine jsParseInt10_natToChars ?_
    have hle : ((min (max n 1) 9999).toNat : ℚ) ≤ 9999 := by
      have : (min (max n 1) 9999).toNat ≤ 9999 := by omega
      exact_mod_cast this
    linarith [hle]
  rw [toInt_of_fin hparse, ← hzn]
  rw [max_eq_left (by exact_mod_cast hz1)]
  exact min_eq_left (by exact_mod_cast hz2)

/-! ### normRows: first error wins, order preserved -/

theorem normRows_ok_spec : ∀ {rs : List JSVal} {l : List SanitizedRow},
    normRows rs = .ok l →
      l.length = rs.length ∧
      ∀ i (hi : i < rs.length) (hl : i < l.length),
        sanitizeRow (rs.get ⟨i, hi⟩) = .ok (l.get ⟨i, hl⟩) := by
  intro rs
  induction rs with
  | nil =>
    intro l h
    have hl : l = [] := by
      unfold normRows at h
      rw [Except.ok.injEq] at h
      exact h.symm
    subst hl
    exact ⟨rfl, fun i hi _ => absurd hi (by simp)⟩
  | cons r rs ih =>
    intro l h
    unfold normRows at h
    cases hs : sanitizeRow r with
    | error e => rw [hs] at h; exact absurd h (by simp)
    | ok srow =>
      rw [hs] at h
      cases hn : normRows rs with
      | error e => rw [hn] at h; exact absurd h (by simp)
      | ok l' =>
        rw [hn, Except.ok.injEq] at h
        subst h
        obtain ⟨hlen, hget⟩ := ih hn
        refine ⟨by simp [hlen], ?_⟩
        intro i hi hl
        cases i with
        | zero => simpa using hs
        | succ j =>
          have hj : j < rs.length := by simpa using hi
          have hj' : j < l'.length := by simpa using hl
          simpa using hget j hj hj'

/-! ### The bounded reader -/

theorem readStreamAux_none_iff (m : ℕ) : ∀ (cs : List (List ℕ)) (received : ℕ),
    received ≤ m →
    ((readStreamAux m cs received).1 = none ↔
      m < received + (cs.map List.length).sum) := by
  intro cs
  induction cs with
  | nil =>
    intro received hr
    simp [readStreamAux]
    omega
  | cons c cs ih =>
    intro received hr
    unfold readStreamAux
    by_cases hc : m < received + c.length
    · rw [if_pos hc]
      simp only [List.map_cons, List.sum_cons]
      constructor
      · intro _; omega
      · intro _; trivial
    · rw [if_neg hc]
      simp only [Option.map_eq_none', List.map_cons, List.sum_cons]
      rw [ih (received + c.length) (by omega)]
      omega

theorem readStreamAux_some (m : ℕ) : ∀ (cs : List (List ℕ)) (received : ℕ) (b : List ℕ),
    (readStreamAux m cs received).1 = some b →
      b = cs.flatten ∧ (readStreamAux m cs received).2 = cs.length := by
  intro cs
  induction cs with
  | nil =>
    intro received b h
    simp [readStreamAux] at h
    subst h
    exact ⟨rfl, rfl⟩
  | cons c cs ih =>
    intro received b h
    unfold readStreamAux at h ⊢
    by_cases hc : m < received + c.length
    · rw [if_pos hc] at h
      exact absurd h (by simp)
    · rw [if_neg hc] at h
      rw [if_neg hc]
      simp only [Option.map_eq_some'] at h
      obtain ⟨b', hb', rfl⟩ := h
      obtain ⟨hj, hk⟩ := ih (received + c.length) b' hb'
      subst hj
      exact ⟨by simp, by simp [hk]⟩

theorem readStreamAux_abort (m : ℕ) : ∀ (cs : List (List ℕ)) (received : ℕ),
    received ≤ m →
    (readStreamAux m cs received).1 = none →
      1 ≤ (readStreamAux m cs received).2 ∧
      (readStreamAux m cs received).2 ≤ cs.length ∧
      m < received + ((cs.take (readStreamAux m cs received).2).map List.length).sum ∧
      received + ((cs.take ((readStreamAux m cs received).2 - 1)).map List.length).sum ≤ m := by
  intro cs
  induction cs with
  | nil =>
    intro received _ h
    exact absurd h (by simp [readStreamAux])
  | cons c cs ih =>
    intro received hr h
    unfold readStreamAux at h ⊢
    by_cases hc : m < received + c.length
    · rw [if_pos hc] at h ⊢
      refine ⟨le_refl 1, by simp, ?_, ?_⟩
      · simpa using hc
      · simpa using hr
    · rw [if_neg hc] at h ⊢
      simp only [Option.map_eq_none'] at h
      obtain ⟨h1, h2, h3, h4⟩ := ih (received + c.length) (by omega) h
      dsimp only
      refine ⟨by omega, by simpa using h2, ?_, ?_⟩
      · show m < received +
          (((c :: cs).take ((readStreamAux m cs (received + c.length)).2 + 1)).map
            List.length).sum
        rw [List.take_succ_cons]
        simp only [List.map_cons, List.sum_cons]
        omega
      · show received +
          (((c :: cs).take ((readStreamAux m cs (received + c.length)).2 + 1 - 1)).map
            List.length).sum ≤ m
        have hsub : (readStreamAux m cs (received + c.length)).2 + 1 - 1
            = (readStreamAux m cs (received + c.length)).2 := by omega
        rw [hsub]
        have htake : (c :: cs).take ((readStreamAux m cs (received + c.length)).2)
            = c :: cs.take ((readStreamAux m cs (received + c.length)).2 - 1) := by
          have hk2 : (readStreamAux m cs (received + c.length)).2
              = ((readStreamAux m cs (received + c.length)).2 - 1) + 1 := by omega
          rw [hk2, List.take_succ_cons]
          rw [← hk2]
        rw [htake]
        simp only [List.map_cons, List.sum_cons]
        omega

/-! ### Relay interpretation and handleSave response shapes -/

theorem relayRespond_success {d : DownstreamResp}
    (h : (resOk d.status && hasSuccess (d.text.getD [])) = true) :
    relayRespond d = ⟨200, [("ok", .vb true), ("forwarded", .vb true)]⟩ := by
  unfold relayRespond
  rw [if_pos h]

theorem relayRespond_fail {d : DownstreamResp}
    (h : (resOk d.status && hasSuccess (d.text.getD [])) = false) :
    relayRespond d = ⟨502, [("ok", .vb false), ("forwarded", .vb false),
      ("status", .vn d.status), ("body", .vs ((d.text.getD []).take 3000))]⟩ := by
  unfold relayRespond
  rw [if_neg (by rw [h]; simp)]

theorem relayRespond_success_iff (d : DownstreamResp) :
    relayRespond d = ⟨200, [("ok", .vb true), ("forwarded", .vb true)]⟩ ↔
      (resOk d.status && hasSuccess (d.text.getD [])) = true := by
  constructor
  · intro h
    by_contra hb
    rw [relayRespond_fail (Bool.eq_false_iff.mpr hb)] at h
    have := congrArg HttpResp.status h
    simp at this
  · exact relayRespond_success

theorem hasSuccess_nil : hasSuccess [] = false := by decide

theorem relayRespond_none_text (st : ℕ) :
    relayRespond ⟨st, none⟩ = ⟨502, [("ok", .vb false), ("forwarded", .vb false),
      ("status", .vn st), ("body", .vs [])]⟩ := by
  have h : (resOk st && hasSuccess ((none : Option (List Char)).getD [])) = false := by
    rw [show (none : Option (List Char)).getD [] = [] from rfl, hasSuccess_nil]
    simp
  rw [relayRespond_fail h]
  rfl

theorem handleSave_calls_le_one (parse : List ℕ → Option JSVal) (down : DownstreamResp)
    (body : BodySource) :
    ∀ r, handleSave parse down body = .ok r → r.2 ≤ 1 := by
  intro r h
  unfold handleSave at h
  split at h
  · cases h; norm_num
  · split at h
    · cases h; norm_num
    · split at h
      · cases h; norm_num
      · split at h
        · exact absurd h (by simp)
        · cases h; norm_num
        · cases h; norm_num

theorem handleSave_relay_calls (parse : List ℕ → Option JSVal) (down : DownstreamResp)
    (body : BodySource) :
    ∀ resp, handleSave parse down body = .ok (resp, 1) → resp = relayRespond down := by
  intro resp h
  unfold handleSave at h
  split at h
  · cases h
  · split at h
    · cases h
    · split at h
      · cases h
      · split at h
        · exact absurd h (by simp)
        · cases h
        · cases h; rfl

theorem handleSave_error_taxonomy (parse : List ℕ → Option JSVal) (down : DownstreamResp)
    (body : BodySource) :
    ∀ resp n, handleSave parse down body = .ok (resp, n) →
      findField resp.fields "error" = none ∨
      ∃ e, findField resp.fields "error" = some (.vs e) ∧ e ∈ errorTaxonomy := by
  intro resp n h
  unfold handleSave at h
  split at h
  · cases h
    right
    exact ⟨jstr "payload_too_large", rfl, by simp [errorTaxonomy]⟩
  · split at h
    · cases h
      right
      exact ⟨jstr "invalid_json", rfl, by simp [errorTaxonomy]⟩
    · split at h
      · cases h
        right
        exact ⟨jstr "empty_rows", rfl, by simp [errorTaxonomy]⟩
      · split at h
        · exact absurd h (by simp)
        · cases h
          right
          exact ⟨jstr "invalid_row", rfl, by simp [errorTaxonomy]⟩
        · cases h
          left
          by_cases hc : (resOk down.status && hasSuccess (down.text.getD [])) = true
          · rw [relayRespond_success hc]
            rfl
          · rw [relayRespond_fail (Bool.eq_false_iff.mpr hc)]
            rfl

/-! ### Concrete evaluations used by the scenario claims -/

theorem parse_str3 : jsParseFloat (jstr "3") = .fin 3 := by
  rw [show jstr "3" = '3' :: ([] : List Char) from rfl]
  refine @jsParseFloat_simple '3' [] ['3'] [] [] 3
    (by decide) (by decide) (by decide) ?_ (by norm_num) (by norm_num)
  rw [show digitsToNat (['3'] ++ []) = 3 from by decide,
    show parseExp [] = 0 from by decide]
  norm_num

theorem parse_str045 : jsParseFloat (jstr "0.45") = .fin (45 / 100) := by
  rw [show jstr "0.45" = '0' :: jstr ".45" from rfl]
  refine @jsParseFloat_simple '0' (jstr ".45") ['0'] ['4', '5'] [] (45 / 100)
    (by decide) (by decide) (by decide) ?_ (by norm_num) (by norm_num)
  rw [show digitsToNat (['0'] ++ ['4', '5']) = 45 from by decide,
    show parseExp [] = 0 from by decide,
    show ((['4', '5'] : List Char).length : ℤ) = 2 from by decide]
  rw [show ((0 : ℤ) - 2) = -2 from by decide, zpow_neg]
  norm_num

theorem parse_str345 : jsParseFloat (jstr "3.45") = .fin (345 / 100) := by
  rw [show jstr "3.45" = '3' :: jstr ".45" from rfl]
  refine @jsParseFloat_simple '3' (jstr ".45") ['3'] ['4', '5'] [] (345 / 100)
    (by decide) (by decide) (by decide) ?_ (by norm_num) (by norm_num)
  rw [show digitsToNat (['3'] ++ ['4', '5']) = 345 from by decide,
    show parseExp [] = 0 from by decide,
    show ((['4', '5'] : List Char).length : ℤ) = 2 from by decide]
  rw [show ((0 : ℤ) - 2) = -2 from by decide, zpow_neg]
  norm_num

theorem parse_1e21 : jsParseFloat (jstr "1e21") = .fin ((10 : ℚ) ^ 21) := by
  rw [show jstr "1e21" = '1' :: jstr "e21" from rfl]
  refine @jsParseFloat_simple '1' (jstr "e21") ['1'] [] (jstr "e21") ((10 : ℚ) ^ 21)
    (by decide) (by decide) (by decide) ?_ (by norm_num) (by norm_num)
  rw [show digitsToNat (['1'] ++ []) = 1 from by decide,
    show parseExp (jstr "e21") = 21 from by decide]
  norm_num

theorem toMoney_fixed_eval {s : List Char} {q : ℚ} {z : ℤ}
    (hp : jsParseFloat s = .fin q) (hq : ¬(q < 0))
    (hfl : ⌊100 * q + 1 / 2⌋ = z) (hz : z < 10 ^ 23) :
    toMoney (.str s) = fixed2Str z.toNat := by
  rw [toMoney_def, jsToString_str, hp]
  show (if q < 0 then jstr "0.00" else toFixed2 q) = fixed2Str z.toNat
  rw [if_neg hq]
  unfold toFixed2
  rw [hfl, if_pos hz]

theorem toMoney_str3 : toMoney (.str (jstr "3")) = jstr "3.00" := by
  rw [toMoney_fixed_eval parse_str3 (by norm_num)
    (floor_eval (z := 300) (by norm_num) (by norm_num)) (by norm_num)]
  decide

theorem toMoney_str045 : toMoney (.str (jstr "0.45")) = jstr "0.45" := by
  rw [toMoney_fixed_eval parse_str045 (by norm_num)
    (floor_eval (z := 45) (by norm_num) (by norm_num)) (by norm_num)]
  decide

theorem toMoney_str345 : toMoney (.str (jstr "3.45")) = jstr "3.45" := by
  rw [toMoney_fixed_eval parse_str345 (by norm_num)
    (floor_eval (z := 345) (by norm_num) (by norm_num)) (by norm_num)]
  decide

theorem toMoney_undefined : toMoney .undefined = jstr "0.00" := by
  rw [toMoney_def, show jsToString .undefined = jstr "undefined" from by simp [jsToString],
    show jsParseFloat (jstr "undefined") = .nan from by decide]

theorem toInt_fin_eval {v : JSVal} {q r : ℚ}
    (hp : jsParseInt10 (jsToString v) = .fin q) (hr : min (max q 1) 9999 = r) :
    toInt v 1 9999 = r := by
  rw [toInt_of_fin hp, hr]

theorem jsParseInt10_str2 : jsParseInt10 (jstr "2") = .fin ((2 : ℕ) : ℚ) := by
  rw [show jstr "2" = '2' :: ([] : List Char) from rfl]
  exact jsParseInt10_simple (by decide) (by decide) (by norm_num)

theorem toInt_str2 : toInt (.str (jstr "2")) 1 9999 = 2 := by
  refine toInt_fin_eval (q := ((2 : ℕ) : ℚ)) ?_ (by push_cast; norm_num)
  rw [jsToString_str]
  exact jsParseInt10_str2

theorem toInt_str0 : toInt (.str (jstr "0")) 1 9999 = 1 := by
  refine toInt_fin_eval (q := ((0 : ℕ) : ℚ)) ?_ (by push_cast; norm_num)
  rw [jsToString_str]
  rw [show jstr "0" = '0' :: ([] : List Char) from rfl]
  exact jsParseInt10_simple (by decide) (by decide) (by norm_num)

theorem jsParseInt10_neg7 : jsParseInt10 (jstr "-7") = .fin (-7 : ℚ) := by
  rw [jsParseInt10_def,
    show ((jstr "-7").dropWhile isJsWS) = '-' :: ['7'] from by decide,
    show readSign ('-' :: ['7']) = (true, ['7']) from by simp [readSign]]
  rw [show ((true, ['7']) : Bool × List Char).2 = ['7'] from rfl,
    show ((true, ['7']) : Bool × List Char).1 = true from rfl]
  rw [show (['7'].takeWhile isDigitCh) = ['7'] from by decide]
  rw [show (['7'] : List Char).isEmpty = false from rfl]
  rw [if_neg (by simp)]
  rw [if_pos rfl, show digitsToNat ['7'] = 7 from by decide]
  have h7 : ((-((7 : ℕ) : ℤ) : ℤ) : ℚ) = (-7 : ℚ) := by push_cast; ring
  rw [h7]
  exact clampOvf_of_lt (by norm_num) (by norm_num)

theorem toInt_neg7 : toInt (.str (jstr "-7")) 1 9999 = 1 := by
  refine toInt_fin_eval (q := (-7 : ℚ)) ?_ (by norm_num)
  rw [jsToString_str]
  exact jsParseInt10_neg7

theorem decK_natCast (m : ℕ) : decK (m : ℚ) = 0 := by
  unfold decK
  rw [Rat.den_natCast, show List.range (1 + 1) = [0, 1] from rfl, List.find?_cons_of_pos]
  · rfl
  · simp [Rat.den_natCast]

theorem toMoney_1e21 : toMoney (.str (jstr "1e21")) = jstr "1e+21" := by
  rw [toMoney_def, jsToString_str, parse_1e21]
  show (if ((10 : ℚ) ^ 21) < 0 then jstr "0.00" else toFixed2 ((10 : ℚ) ^ 21)) = jstr "1e+21"
  rw [if_neg (not_lt.mpr (by positivity : (0 : ℚ) ≤ (10 : ℚ) ^ 21))]
  unfold toFixed2
  rw [floor_eval (z := 10 ^ 23) (by norm_num) (by norm_num)]
  rw [if_neg (by norm_num)]
  unfold expStr
  have hq : ((10 : ℚ) ^ 21) = ((10 ^ 21 : ℕ) : ℚ) := by push_cast; ring
  rw [hq, decK_natCast, pow_zero, mul_one, Rat.num_natCast, Int.toNat_natCast]
  show expStrCore (10 ^ 21) 0 = jstr "1e+21"
  decide

/-! ### Two-decimal output format and scenario rows -/

theorem isTwoDecStr_of_reverse {s : List Char} {b a c : Char} {rest : List Char}
    (h : s.reverse = b :: a :: c :: rest) :
    isTwoDecStr s = (isDigitCh b && isDigitCh a && decide (c = '.') &&
      !rest.isEmpty && rest.all isDigitCh) := by
  unfold isTwoDecStr
  rw [h]

theorem fixed2Str_isTwoDec (n : ℕ) : isTwoDecStr (fixed2Str n) = true := by
  have hmod : n % 100 < 100 := Nat.mod_lt n (by norm_num)
  have hlen := pad2_length hmod
  rcases hP : pad2 (n % 100) with _ | ⟨a, _ | ⟨b, _ | ⟨x, t⟩⟩⟩ <;>
    rw [hP] at hlen <;> simp at hlen
  have ha : isDigitCh a = true := pad2_all_digit (n % 100) a (by rw [hP]; simp)
  have hb : isDigitCh b = true := pad2_all_digit (n % 100) b (by rw [hP]; simp)
  have hrev : (fixed2Str n).reverse = b :: a :: '.' :: (natToChars (n / 100)).reverse := by
    unfold fixed2Str
    rw [hP]
    simp
  rw [isTwoDecStr_of_reverse hrev, ha, hb]
  have hne : natToChars (n / 100) ≠ [] := natToChars_ne_nil _
  simp [hne, List.all_eq_true]
  intro c hc
  exact natToChars_all_digit _ c hc

theorem toFixed2_cases (q : ℚ) :
    (∃ n : ℕ, toFixed2 q = fixed2Str n) ∨
    ((10 : ℚ) ^ 20 ≤ q ∧ toFixed2 q = expStr q) := by
  unfold toFixed2
  by_cases hbig : ⌊100 * q + 1 / 2⌋ < 10 ^ 23
  · left
    exact ⟨(⌊100 * q + 1 / 2⌋).toNat, by rw [if_pos hbig]⟩
  · right
    refine ⟨?_, by rw [if_neg hbig]⟩
    have h1 : ((10 ^ 23 : ℤ) : ℚ) ≤ 100 * q + 1 / 2 := Int.le_floor.mp (not_lt.mp hbig)
    have h2 : ((10 ^ 23 : ℤ) : ℚ) = 10 ^ 23 := by push_cast; ring
    rw [h2] at h1
    have h3 : (10 : ℚ) ^ 23 = 100 * 10 ^ 21 := by norm_num
    have h4 : (10 : ℚ) ^ 21 - 1 / 200 ≥ 10 ^ 20 := by norm_num
    linarith

theorem zeroStr_isTwoDec : isTwoDecStr (jstr "0.00") = true := by decide

theorem sanitizeRow_obj (fs : List (String × JSVal)) :
    sanitizeRow (.obj fs) =
      (if (safeText (jsGet (.obj fs) "timestamp") 64).isEmpty ||
          (safeText (jsGet (.obj fs) "item") 96).isEmpty ||
          toInt (jsGet (.obj fs) "qty") 1 9999 ≤ 0 then
        Except.error (.invalid (safeText (jsGet (.obj fs) "item") 96)
          (toInt (jsGet (.obj fs) "qty") 1 9999))
      else
        Except.ok { timestamp := safeText (jsGet (.obj fs) "timestamp") 64,
                    item_name := safeText (jsGet (.obj fs) "item") 96,
                    qty := toInt (jsGet (.obj fs) "qty") 1 9999,
                    subtotal_usd := toMoney (jsGet (.obj fs) "subtotal"),
                    vat_usd := toMoney (jsGet (.obj fs) "vat"),
                    total_usd := toMoney (jsGet (.obj fs) "total"),
                    currency := jstr "USD", iva_rate := ivaRate }) := rfl

theorem sanitizeRow_rowA : sanitizeRow rowA = .ok rowASan := by
  have h1 : safeText (jsGet (.obj rowAFields) "timestamp") 64 = jstr "t1" := by decide
  have h2 : safeText (jsGet (.obj rowAFields) "item") 96 = jstr "Coffee" := by decide
  have h3 : toInt (jsGet (.obj rowAFields) "qty") 1 9999 = 2 := by
    rw [show jsGet (.obj rowAFields) "qty" = .str (jstr "2") from rfl]
    exact toInt_str2
  have h4 : toMoney (jsGet (.obj rowAFields) "subtotal") = jstr "3.00" := by
    rw [show jsGet (.obj rowAFields) "subtotal" = .str (jstr "3") from rfl]
    exact toMoney_str3
  have h5 : toMoney (jsGet (.obj rowAFields) "vat") = jstr "0.45" := by
    rw [show jsGet (.obj rowAFields) "vat" = .str (jstr "0.45") from rfl]
    exact toMoney_str045
  have h6 : toMoney (jsGet (.obj rowAFields) "total") = jstr "3.45" := by
    rw [show jsGet (.obj rowAFields) "total" = .str (jstr "3.45") from rfl]
    exact toMoney_str345
  show sanitizeRow (.obj rowAFields) = .ok rowASan
  rw [sanitizeRow_obj, h1, h2, h3, h4, h5, h6]
  rw [if_neg (by
    rw [show (jstr "t1").isEmpty = false from rfl,
      show (jstr "Coffee").isEmpty = false from rfl,
      decide_eq_false (by norm_num : ¬((2 : ℚ) ≤ 0))]
    simp)]
  rfl

theorem sanitizeRow_rowQ0 : sanitizeRow rowQ0 = .ok rowQSan := by
  have h1 : safeText (jsGet (.obj rowQFields) "timestamp") 64 = jstr "t" := by decide
  have h2 : safeText (jsGet (.obj rowQFields) "item") 96 = jstr "x" := by decide
  have h3 : toInt (jsGet (.obj rowQFields) "qty") 1 9999 = 1 := by
    rw [show jsGet (.obj rowQFields) "qty" = .str (jstr "0") from rfl]
    exact toInt_str0
  have h4 : toMoney (jsGet (.obj rowQFields) "subtotal") = jstr "0.00" := by
    rw [show jsGet (.obj rowQFields) "subtotal" = JSVal.undefined from rfl]
    exact toMoney_undefined
  have h5 : toMoney (jsGet (.obj rowQFields) "vat") = jstr "0.00" := by
    rw [show jsGet (.obj rowQFields) "vat" = JSVal.undefined from rfl]
    exact toMoney_undefined
  have h6 : toMoney (jsGet (.obj rowQFields) "total") = jstr "0.00" := by
    rw [show jsGet (.obj rowQFields) "total" = JSVal.undefined from rfl]
    exact toMoney_undefined
  show sanitizeRow (.obj rowQFields) = .ok rowQSan
  rw [sanitizeRow_obj, h1, h2, h3, h4, h5, h6]
  rw [if_neg (by
    rw [show (jstr "t").isEmpty = false from rfl,
      show (jstr "x").isEmpty = false from rfl,
      decide_eq_false (by norm_num : ¬((1 : ℚ) ≤ 0))]
    simp)]
  rfl

theorem normRows_rowA : normRows [rowA] = .ok [rowASan] := by
  unfold normRows
  rw [sanitizeRow_rowA]
  rfl

/-! ### The claims -/

/-- Counterexample to claim C1: a failing downstream response (status 500,
body without the marker) yields the 502 relay-failure response carrying only
`ok`, `forwarded`, `status` and `body` — it has no `error` code field at
all, contradicting the spec's "on failure, an `error` code string". -/
theorem C1_counterexample :
    relayRespond ⟨500, some (jstr "nope")⟩ =
      ⟨502, [("ok", .vb false), ("forwarded", .vb false),
             ("status", .vn ((500 : ℕ) : ℚ)), ("body", .vs (jstr "nope"))]⟩ ∧
    hasField (relayRespond ⟨500, some (jstr "nope")⟩) "error" = false := by
  exact ⟨rfl, rfl⟩

/-- Claim C1 (amended): a non-success downstream outcome yields the 502
response whose JSON object carries `ok = false`, `forwarded = false`, the
downstream `status` and the `body` truncated to 3000 characters — but no
`error` field; the §7 taxonomy codes appear exactly on the pre-relay
rejections (every `handleSave` response either has no `error` field or one
drawn from the taxonomy). -/
theorem C1_relay_failure_shape (d : DownstreamResp)
    (h : (resOk d.status && hasSuccess (d.text.getD [])) = false) :
    relayRespond d = ⟨502, [("ok", .vb false), ("forwarded", .vb false),
      ("status", .vn d.status), ("body", .vs ((d.text.getD []).take 3000))]⟩ ∧
    hasField (relayRespond d) "error" = false ∧
    (∀ parse down body resp n, handleSave parse down body = .ok (resp, n) →
      findField resp.fields "error" = none ∨
      ∃ e, findField resp.fields "error" = some (.vs e) ∧ e ∈ errorTaxonomy) := by
  refine ⟨relayRespond_fail h, ?_, fun parse down body resp n hh =>
    handleSave_error_taxonomy parse down body resp n hh⟩
  rw [relayRespond_fail h]
  rfl

/-- Witness for the amended C1 theorem at the concrete downstream response
`⟨500, some "nope"⟩`. -/
theorem C1_relay_failure_shape_witness :
    relayRespond ⟨500, some (jstr "nope")⟩ =
      ⟨502, [("ok", .vb false), ("forwarded", .vb false),
             ("status", .vn ((500 : ℕ) : ℚ)), ("body", .vs (jstr "nope"))]⟩ ∧
    hasField (relayRespond ⟨500, some (jstr "nope")⟩) "error" = false ∧
    (∀ parse down body resp n, handleSave parse down body = .ok (resp, n) →
      findField resp.fields "error" = none ∨
      ∃ e, findField resp.fields "error" = some (.vs e) ∧ e ∈ errorTaxonomy) :=
  C1_relay_failure_shape ⟨500, some (jstr "nope")⟩ rfl

/-- Claim C2: an oversized body — streaming or whole — produces the 413
`payload_too_large` response with zero downstream calls, and the streaming
reader aborts on the first chunk that pushes the received count past the
65536-byte cap (everything before that chunk fits under the cap). -/
theorem C2_payload_too_large :
    (∀ (parse : List ℕ → Option JSVal) (down : DownstreamResp) (bs : List ℕ),
      maxBytes < bs.length →
      handleSave parse down (.whole bs) = .ok (tooLargeResp, 0)) ∧
    (∀ (parse : List ℕ → Option JSVal) (down : DownstreamResp) (cs : List (List ℕ)),
      maxBytes < (cs.map List.length).sum →
      handleSave parse down (.stream cs) = .ok (tooLargeResp, 0)) ∧
    (∀ cs : List (List ℕ), readLimited (.stream cs) maxBytes = none →
      1 ≤ chunksConsumed cs maxBytes ∧ chunksConsumed cs maxBytes ≤ cs.length ∧
      maxBytes < ((cs.take (chunksConsumed cs maxBytes)).map List.length).sum ∧
      ((cs.take (chunksConsumed cs maxBytes - 1)).map List.length).sum ≤ maxBytes) := by
  refine ⟨?_, ?_, ?_⟩
  · intro parse down bs h
    have hr : readLimited (.whole bs) maxBytes = none := by
      show (if maxBytes < bs.length then none else some bs) = none
      rw [if_pos h]
    unfold handleSave
    rw [hr]
  · intro parse down cs h
    have hr : readLimited (.stream cs) maxBytes = none := by
      unfold readLimited
      exact (readStreamAux_none_iff maxBytes cs 0 (Nat.zero_le _)).mpr (by omega)
    unfold handleSave
    rw [hr]
  · intro cs h
    obtain ⟨h1, h2, h3, h4⟩ := readStreamAux_abort maxBytes cs 0 (Nat.zero_le _) h
    unfold chunksConsumed
    exact ⟨h1, h2, by omega, by omega⟩

/-- Witness for the C2 theorem: a 65537-byte whole body is rejected as
`payload_too_large` without any downstream call. -/
theorem C2_payload_too_large_witness :
    handleSave (fun _ => none) ⟨200, none⟩ (.whole (List.replicate 65537 0)) =
      .ok (tooLargeResp, 0) :=
  C2_payload_too_large.1 (fun _ => none) ⟨200, none⟩ (List.replicate 65537 0)
    (by rw [List.length_replicate]; norm_num [maxBytes])

/-- Claim C3 (code bug): a `null` element among the rows makes the handler
throw an uncaught `TypeError` (property access on `null` at line 45 of the
source) instead of returning the 422 `invalid_row` response the spec
promises for any failing row — even when a companion row of the same list is
perfectly valid. -/
theorem C3_null_row_throws :
    normRows [JSVal.null, rowA] = .error .thrown ∧
    handleSave (fun _ => some (.arr [JSVal.null, rowA]))
      ⟨200, some (jstr "success")⟩ (.whole []) = .error () ∧
    sanitizeRow rowA = .ok rowASan :=
  ⟨rfl, rfl, sanitizeRow_rowA⟩

/-- Counterexample to claim C4: `toInt` is not idempotent (an unparsable
quantity maps to 0, which re-sanitizes to the lower bound 1), and `safeText`
is not idempotent (truncation can cut right after a space, which the second
application trims away). -/
theorem C4_counterexample :
    toInt (.str (jstr "x")) 1 9999 = 0 ∧
    toInt (.num (.fin (0 : ℚ))) 1 9999 = 1 ∧
    safeText (.str (jstr "aa b")) 3 = jstr "aa " ∧
    safeText (.str (safeText (.str (jstr "aa b")) 3)) 3 = jstr "aa" := by
  have hx : jsParseInt10 (jsToString (.str (jstr "x"))) = .nan := by
    rw [jsToString_str, jsParseInt10_def,
      show ((jstr "x").dropWhile isJsWS) = jstr "x" from by decide,
      show readSign (jstr "x") = (false, jstr "x") from by decide,
      if_pos (show (((false, jstr "x") : Bool × List Char).2.takeWhile
        isDigitCh).isEmpty = true from by decide)]
  have hz : jsToString (.num (.fin (0 : ℚ))) = jstr "0" := by
    rw [show jsToString (.num (.fin (0 : ℚ))) = ratToChars 0 from by
      simp [jsToString, numToChars]]
    unfold ratToChars
    rw [if_pos rfl]
    rfl
  have h2 : jsParseInt10 (jsToString (.num (.fin (0 : ℚ)))) = .fin ((0 : ℕ) : ℚ) := by
    rw [hz, show jstr "0" = '0' :: ([] : List Char) from rfl]
    exact jsParseInt10_simple (by decide) (by decide) (by norm_num)
  refine ⟨toInt_of_bad (Or.inl hx), ?_, by decide, by decide⟩
  rw [toInt_of_fin h2]
  push_cast
  norm_num

/-- Claim C4 (amended): `toMoney` is idempotent unconditionally; `safeText`
is idempotent whenever its output does not end in whitespace (truncation is
the only way a trailing space can survive the trim); `toInt` is idempotent
whenever the input's string form parses to a finite integer. -/
theorem C4_amended :
    (∀ v : JSVal, toMoney (.str (toMoney v)) = toMoney v) ∧
    (∀ (v : JSVal) (maxLen : ℕ),
      (∀ c, (safeText v maxLen).getLast? = some c → isJsWS c = false) →
      safeText (.str (safeText v maxLen)) maxLen = safeText v maxLen) ∧
    (∀ (v : JSVal) (q : ℚ), jsParseInt10 (jsToString v) = .fin q →
      toInt (.num (.fin (toInt v 1 9999))) 1 9999 = toInt v 1 9999) :=
  ⟨toMoney_idem, fun v maxLen h => safeText_idem h, fun v q h => toInt_idem_of_fin h⟩

/-- Witness for the amended C4 theorem: the conditional idempotence parts
applied at concrete inputs, their hypotheses discharged by computation. -/
theorem C4_amended_witness :
    safeText (.str (safeText (.str (jstr "ab")) 5)) 5 = safeText (.str (jstr "ab")) 5 ∧
    toInt (.num (.fin (toInt (.str (jstr "2")) 1 9999))) 1 9999 =
      toInt (.str (jstr "2")) 1 9999 :=
  ⟨C4_amended.2.1 (.str (jstr "ab")) 5 (by decide),
   C4_amended.2.2 (.str (jstr "2")) ((2 : ℕ) : ℚ)
     (by rw [jsToString_str]; exact jsParseInt10_str2)⟩

/-- Counterexample to claim C5: on the string "1e21" `toMoney` returns the
exponential string "1e+21", which is not a two-decimal format. -/
theorem C5_counterexample :
    toMoney (.str (jstr "1e21")) = jstr "1e+21" ∧
    isTwoDecStr (jstr "1e+21") = false :=
  ⟨toMoney_1e21, by decide⟩

/-- Claim C5 (amended): `toMoney` is total, and every output is either the
literal "0.00" (non-finite or negative parses), a two-decimal string, or —
for parses at or above 10^20 — an exponential rendering; the exactly-two-
decimals format is guaranteed only below the `toString` threshold. -/
theorem C5_amended :
    (∀ v : JSVal, toMoney v = jstr "0.00" ∨
      (∃ n : ℕ, toMoney v = fixed2Str n ∧ isTwoDecStr (toMoney v) = true) ∨
      (∃ q : ℚ, (10 : ℚ) ^ 20 ≤ q ∧ toMoney v = expStr q)) ∧
    isTwoDecStr (jstr "0.00") = true := by
  refine ⟨?_, zeroStr_isTwoDec⟩
  intro v
  rcases toMoney_out_cases v with h | ⟨q, h0, hovf, hdec, h⟩
  · exact Or.inl h
  · rcases toFixed2_cases q with ⟨n, hn⟩ | ⟨hq, hexp⟩
    · right; left
      exact ⟨n, by rw [h, hn], by rw [h, hn]; exact fixed2Str_isTwoDec n⟩
    · right; right
      exact ⟨q, hq, by rw [h, hexp]⟩

/-- Claim C7: relay success holds exactly when the downstream status is 2xx
and the body carries the case-insensitive marker; every other outcome is the
502 failure response surfacing the downstream status and the body truncated
to 3000 characters; a failed body read acts as empty text (and hence fails);
at most one downstream call is issued, and a response issued alongside a
downstream call is the relay interpretation of that single call. -/
theorem C7_relay_semantics :
    (∀ d : DownstreamResp,
      relayRespond d = ⟨200, [("ok", .vb true), ("forwarded", .vb true)]⟩ ↔
        (resOk d.status && hasSuccess (d.text.getD [])) = true) ∧
    (∀ d : DownstreamResp, (resOk d.status && hasSuccess (d.text.getD [])) = false →
      relayRespond d = ⟨502, [("ok", .vb false), ("forwarded", .vb false),
        ("status", .vn d.status), ("body", .vs ((d.text.getD []).take 3000))]⟩) ∧
    (∀ st : ℕ, relayRespond ⟨st, none⟩ = ⟨502, [("ok", .vb false),
        ("forwarded", .vb false), ("status", .vn st), ("body", .vs [])]⟩) ∧
    (∀ parse down body r, handleSave parse down body = .ok r → r.2 ≤ 1) ∧
    (∀ parse down body resp, handleSave parse down body = .ok (resp, 1) →
      resp = relayRespond down) :=
  ⟨relayRespond_success_iff, fun d h => relayRespond_fail h, relayRespond_none_text,
   fun parse down body r h => handleSave_calls_le_one parse down body r h,
   fun parse down body resp h => handleSave_relay_calls parse down body resp h⟩

/-- Witness for the C7 theorem: the failure branch at the concrete downstream
response `⟨500, some "nah"⟩`. -/
theorem C7_relay_semantics_witness :
    relayRespond ⟨500, some (jstr "nah")⟩ =
      ⟨502, [("ok", .vb false), ("forwarded", .vb false),
             ("status", .vn ((500 : ℕ) : ℚ)), ("body", .vs (jstr "nah"))]⟩ :=
  C7_relay_semantics.2.1 ⟨500, some (jstr "nah")⟩ rfl

/-- Claim C8: `safeText` yields "" on every non-string; on strings its output
never contains `<`, `>` or an ASCII control character and respects the length
bound; concretely, the script-tag item sanitizes to "scriptx/script", a
control run collapses to one space, and surrounding whitespace is trimmed. -/
theorem C8_safeText_spec :
    (∀ (v : JSVal) (maxLen : ℕ), (∀ s, v ≠ .str s) → safeText v maxLen = []) ∧
    (∀ (s : List Char) (maxLen : ℕ) (c : Char), c ∈ safeText (.str s) maxLen →
      isCtl c = false ∧ c ≠ '<' ∧ c ≠ '>') ∧
    (∀ (s : List Char) (maxLen : ℕ), (safeText (.str s) maxLen).length ≤ maxLen) ∧
    safeText (.str (jstr "<script>x</script>")) 96 = jstr "scriptx/script" ∧
    safeText (.str ['a', '\x00', '\x01', 'b']) 96 = ['a', ' ', 'b'] ∧
    safeText (.str [' ', 'h', 'i', ' ']) 96 = ['h', 'i'] :=
  ⟨fun v maxLen h => safeText_nonstr h,
   fun s maxLen c hc => safeText_chars c hc,
   fun s maxLen => safeText_length s maxLen,
   by decide, by decide, by decide⟩

/-- Witness for the C8 theorem: the non-string branch at a concrete
non-string value. -/
theorem C8_safeText_spec_witness :
    safeText (.num .nan) 10 = [] :=
  C8_safeText_spec.1 (.num .nan) 10 (fun s h => JSVal.noConfusion h)

/-- Claim C9: the scenario-A submission sanitizes to exactly the expected
single row (timestamp "t1", item "Coffee", qty 2, money "3.00"/"0.45"/"3.45",
currency "USD", iva_rate 0.15), and row order is preserved in general: the
i-th sanitized row comes from the i-th input row. -/
theorem C9_scenarioA :
    normRows [rowA] = .ok [rowASan] ∧
    rowASan.qty = 2 ∧ rowASan.iva_rate = 15 / 100 ∧
    (∀ (rs : List JSVal) (l : List SanitizedRow), normRows rs = .ok l →
      l.length = rs.length ∧
      ∀ i (hi : i < rs.length) (hl : i < l.length),
        sanitizeRow (rs.get ⟨i, hi⟩) = .ok (l.get ⟨i, hl⟩)) :=
  ⟨normRows_rowA, rfl, rfl, fun rs l h => normRows_ok_spec h⟩

/-- Witness for the C9 theorem: the order-preservation part applied to the
scenario-A list itself. -/
theorem C9_scenarioA_witness :
    ([rowASan] : List SanitizedRow).length = ([rowA] : List JSVal).length :=
  (C9_scenarioA.2.2.2 [rowA] [rowASan] normRows_rowA).1

/-- Claim C10: a quantity whose string form parses to a finite integer always
lands in [1, 9999] — numeric 0 and negative quantities are accepted with the
value clamped to 1 (the `qty = "0"` row sanitizes successfully) — while an
unparsable quantity yields 0, below the bound, which is the only way the
quantity check of `invalid_row` can fire. -/
theorem C10_qty_clamping :
    (∀ (v : JSVal) (q : ℚ), jsParseInt10 (jsToString v) = .fin q →
      1 ≤ toInt v 1 9999 ∧ toInt v 1 9999 ≤ 9999) ∧
    toInt (.str (jstr "0")) 1 9999 = 1 ∧
    toInt (.str (jstr "-7")) 1 9999 = 1 ∧
    sanitizeRow rowQ0 = .ok rowQSan ∧
    (∀ v : JSVal, jsParseInt10 (jsToString v) = .nan → toInt v 1 9999 = 0) :=
  ⟨fun v q h => toInt_bounds h, toInt_str0, toInt_neg7, sanitizeRow_rowQ0,
   fun v h => toInt_of_bad (Or.inl h)⟩

/-- Witness for the C10 theorem: the bounds part at the concrete quantity
string "2". -/
theorem C10_qty_clamping_witness :
    1 ≤ toInt (.str (jstr "2")) 1 9999 ∧ toInt (.str (jstr "2")) 1 9999 ≤ 9999 :=
  C10_qty_clamping.1 (.str (jstr "2")) ((2 : ℕ) : ℚ)
    (by rw [jsToString_str]; exact jsParseInt10_str2)
